import Mathlib

set_option maxRecDepth 8000
set_option maxHeartbeats 1600000
set_option linter.unusedVariables false

namespace SuiIdLeak

/-! Shallow embedding of crates/sui-verifier/src/id_leak_verifier.rs.

Rust control flow is made explicit: fallible verifier code returns a `Res`
value, a Rust panic (an `unwrap` on `None`/empty stack, or the `panic!`
macro) is the distinguished outcome `Res.panicked`, and a returned
`PartialVMError` is `Res.vmError`.  Release-build semantics are used
throughout: `debug_assert!` is a no-op.  The external fixed-point engine and
the CFG decomposition live in other crates; they are modelled from the spec
and marked as such in their doc comments. -/

/-- PartialVMError statuses the verifier constructs: an
UNKNOWN_VERIFICATION_ERROR carrying a message (leak reports built by
move_verification_error) and UNKNOWN_INVARIANT_VIOLATION_ERROR. -/
inductive VError where
  | verificationError (msg : String)
  | invariantViolation
deriving DecidableEq

/-- Outcome of running verifier code: a value, a returned PartialVMError, a
Rust panic, or exhaustion of the iteration fuel of the modelled fixed-point
driver. -/
inductive Res (α : Type) where
  | ok (a : α)
  | vmError (e : VError)
  | panicked
  | fuelOut
deriving DecidableEq

/-- Is this error a user-facing leak report (as opposed to an invariant
violation)? -/
def VError.isLeakErr : VError → Bool
  | .verificationError _ => true
  | .invariantViolation => false

/-- Did the computation end in a leak report? -/
def Res.isLeak {α : Type} : Res α → Bool
  | .vmError e => e.isLeakErr
  | _ => false

/-- The two-point abstract domain of the verifier. -/
inductive AbstractValue where
  | ID
  | NonID
deriving DecidableEq

/-- AbstractValue::join from the source: equal values join to themselves,
different values join to ID. -/
def AbstractValue.join (self value : AbstractValue) : AbstractValue :=
  if self = value then value else AbstractValue.ID

/-- JoinResult of the external abstract-interpretation framework. -/
inductive JoinResult where
  | Changed
  | Unchanged
deriving DecidableEq

/-- Lookup in a BTreeMap modelled as a key-sorted association list. -/
def mapGet {α : Type} : List (Nat × α) → Nat → Option α
  | [], _ => none
  | (k, v) :: rest, key => if key = k then some v else mapGet rest key

/-- BTreeMap::insert on the key-sorted association list representation. -/
def mapInsert {α : Type} : List (Nat × α) → Nat → α → List (Nat × α)
  | [], key, v => [(key, v)]
  | (k, w) :: rest, key, v =>
    if key < k then (key, v) :: (k, w) :: rest
    else if key = k then (key, v) :: rest
    else (k, w) :: mapInsert rest key v

/-- BTreeMap::remove (the mapping part; the returned value is mapGet). -/
def mapRemove {α : Type} : List (Nat × α) → Nat → List (Nat × α)
  | [], _ => []
  | (k, w) :: rest, key => if key = k then rest else (k, w) :: mapRemove rest key

/-- The locals map of AbstractState: BTreeMap from LocalIndex to
AbstractValue. -/
abbrev Locals := List (Nat × AbstractValue)

/-- AbstractState from the source: a sparse map from local index to abstract
value. -/
structure AbstractState where
  locals : Locals
deriving DecidableEq

/-- One iteration step of the BTreeMap loop inside AbstractState::join: for an
entry (local, value) of the incoming state, read the old value (defaulting to
NonID), record whether the incoming value differs from the old one, and store
value.join(old_value). -/
def joinStep (acc : Locals × Bool) (entry : Nat × AbstractValue) : Locals × Bool :=
  (mapInsert acc.1 entry.1
      (AbstractValue.join entry.2 ((mapGet acc.1 entry.1).getD AbstractValue.NonID)),
    if entry.2 = (mapGet acc.1 entry.1).getD AbstractValue.NonID then acc.2 else true)

/-- AbstractState::join (the AbstractDomain impl) from the source: fold the
incoming state's entries (BTreeMap iteration is in key order) into self,
reporting Changed when the changed flag was ever set. -/
def AbstractState.join (self state : AbstractState) : AbstractState × JoinResult :=
  let folded := state.locals.foldl joinStep (self.locals, false)
  (⟨folded.1⟩, if folded.2 then JoinResult.Changed else JoinResult.Unchanged)

/-- SignatureToken is never inspected by this verifier (only signature lengths
are); it is modelled as an opaque token. -/
abbrev SignatureToken := Unit

/-- Signature(Vec of SignatureToken) from move_binary_format. -/
structure Signature where
  tokens : List SignatureToken
deriving DecidableEq

/-- AbilitySet as used by the verifier: only has_key is consulted. -/
structure AbilitySet where
  has_key : Bool
deriving DecidableEq

/-- ModuleHandle: an address-identifier index and an identifier index. -/
structure ModuleHandle where
  address : Nat
  name : Nat
deriving DecidableEq

/-- FunctionHandle: module handle index, name identifier index, and the two
signature indices. -/
structure FunctionHandle where
  module : Nat
  name : Nat
  parameters : Nat
  return_ : Nat
deriving DecidableEq

/-- FunctionInstantiation: the instantiated function handle index. -/
structure FunctionInstantiation where
  handle : Nat
deriving DecidableEq

/-- StructHandle as used by the verifier: only the ability set is consulted. -/
structure StructHandle where
  abilities : AbilitySet
deriving DecidableEq

/-- FieldDefinition: never inspected beyond being counted. -/
structure FieldDefinition where
  name : Nat
  signature : Nat
deriving DecidableEq

/-- StructFieldInformation from move_binary_format. -/
inductive StructFieldInformation where
  | Native
  | Declared (fields : List FieldDefinition)
deriving DecidableEq

/-- StructDefinition: struct handle index plus field information. -/
structure StructDefinition where
  struct_handle : Nat
  field_information : StructFieldInformation
deriving DecidableEq

/-- StructInstantiation: the instantiated struct definition index (the field
is called def in Rust, a Lean keyword). -/
structure StructInstantiation where
  def_ : Nat
deriving DecidableEq

/-- The Move bytecode instruction set, with the payloads the verifier reads
(indices, branch offsets and vector lengths as Nat). -/
inductive Bytecode where
  | Pop
  | Ret
  | BrTrue (offset : Nat)
  | BrFalse (offset : Nat)
  | Branch (offset : Nat)
  | LdU8 (v : Nat)
  | LdU16 (v : Nat)
  | LdU32 (v : Nat)
  | LdU64 (v : Nat)
  | LdU128 (v : Nat)
  | LdU256 (v : Nat)
  | CastU8
  | CastU16
  | CastU32
  | CastU64
  | CastU128
  | CastU256
  | LdConst (idx : Nat)
  | LdTrue
  | LdFalse
  | CopyLoc (idx : Nat)
  | MoveLoc (idx : Nat)
  | StLoc (idx : Nat)
  | Call (idx : Nat)
  | CallGeneric (idx : Nat)
  | Pack (idx : Nat)
  | PackGeneric (idx : Nat)
  | Unpack (idx : Nat)
  | UnpackGeneric (idx : Nat)
  | ReadRef
  | WriteRef
  | FreezeRef
  | MutBorrowLoc (idx : Nat)
  | ImmBorrowLoc (idx : Nat)
  | MutBorrowField (idx : Nat)
  | MutBorrowFieldGeneric (idx : Nat)
  | ImmBorrowField (idx : Nat)
  | ImmBorrowFieldGeneric (idx : Nat)
  | MutBorrowGlobal (idx : Nat)
  | MutBorrowGlobalGeneric (idx : Nat)
  | ImmBorrowGlobal (idx : Nat)
  | ImmBorrowGlobalGeneric (idx : Nat)
  | Add
  | Sub
  | Mul
  | Mod
  | Div
  | BitOr
  | BitAnd
  | Xor
  | Or
  | And
  | Not
  | Eq
  | Neq
  | Lt
  | Gt
  | Le
  | Ge
  | Abort
  | Nop
  | Exists (idx : Nat)
  | ExistsGeneric (idx : Nat)
  | MoveFrom (idx : Nat)
  | MoveFromGeneric (idx : Nat)
  | MoveTo (idx : Nat)
  | MoveToGeneric (idx : Nat)
  | Shl
  | Shr
  | VecPack (sig : Nat) (num : Nat)
  | VecLen (sig : Nat)
  | VecImmBorrow (sig : Nat)
  | VecMutBorrow (sig : Nat)
  | VecPushBack (sig : Nat)
  | VecPopBack (sig : Nat)
  | VecUnpack (sig : Nat) (num : Nat)
  | VecSwap (sig : Nat)

/-- CodeUnit: a locals signature index and the instruction stream. -/
structure CodeUnit where
  locals : Nat
  code : List Bytecode

/-- FunctionDefinition as used by the verifier: the handle index and the
optional body (None for native functions). -/
structure FunctionDefinition where
  function : Nat
  code : Option CodeUnit

/-- CompiledModule restricted to the tables this verifier resolves through
BinaryIndexedView.  Addresses are modelled as Nat, identifiers as String. -/
structure CompiledModule where
  module_handles : List ModuleHandle
  struct_handles : List StructHandle
  function_handles : List FunctionHandle
  function_instantiations : List FunctionInstantiation
  struct_defs : List StructDefinition
  struct_instantiations : List StructInstantiation
  signatures : List Signature
  identifiers : List String
  address_identifiers : List Nat
  function_defs : List FunctionDefinition

/-- FunctionView as used by the verifier: the parameter and return
signatures (resolved from the function handle by verify_id_leak). -/
structure FunctionView where
  parameters : Signature
  return_ : Signature
deriving DecidableEq

/-- Modelled from the spec: sui_types::SUI_FRAMEWORK_ADDRESS, the platform's
reserved framework address (its crate is not under src).  Addresses are
modelled as Nat; no claim depends on the concrete value. -/
def SUI_FRAMEWORK_ADDRESS : Nat := 2

/-- Modelled from the spec: sui_types::id::OBJECT_MODULE_NAME, the reserved
module identifier "object" (its crate is not under src). -/
def OBJECT_MODULE_NAME : String := "object"

/-- move_verification_error from the source: an UNKNOWN_VERIFICATION_ERROR
with the prefixed message. -/
def move_verification_error (msg : String) : VError :=
  VError.verificationError ("Sui Move Bytecode Verification Error: " ++ msg)

/-- is_call_safe_to_leak from the source.  The resolver calls index into the
module's tables and panic on an out-of-range index.  The source first checks
that the callee's module address is the framework address and returns false
otherwise; only then does it compare the module name against
OBJECT_MODULE_NAME with function name "delete", or module name "transfer"
with function name "delete_child_object". -/
def is_call_safe_to_leak (m : CompiledModule) (function_handle : FunctionHandle) : Res Bool :=
  match m.module_handles.get? function_handle.module with
  | none => .panicked
  | some mh =>
    match m.address_identifiers.get? mh.address with
    | none => .panicked
    | some addr =>
      if addr = SUI_FRAMEWORK_ADDRESS then
        match m.identifiers.get? mh.name, m.identifiers.get? function_handle.name with
        | some module_name, some function_name =>
          .ok ((module_name == OBJECT_MODULE_NAME && function_name == "delete")
            || (module_name == "transfer" && function_name == "delete_child_object"))
        | _, _ => .panicked
      else
        .ok false

/-- The pop loop shared by the sink transfers: pop n values, and return a
leak error when a popped value is ID (unless exempt, the guaranteed_safe flag
of call); popping an empty stack panics (unwrap). -/
def popCheckLoop (msg : String) (exempt : Bool) : Nat → List AbstractValue → Res (List AbstractValue)
  | 0, stack => .ok stack
  | Nat.succ n, stack =>
    match stack with
    | [] => .panicked
    | v :: rest =>
      if v = AbstractValue.ID ∧ exempt = false then .vmError (move_verification_error msg)
      else popCheckLoop msg exempt n rest

/-- call from the source: compute guaranteed_safe, pop one value per
parameter (leak error on a popped ID unless guaranteed_safe), then push one
NonID per return value. -/
def call (m : CompiledModule) (function_handle : FunctionHandle) (stack : List AbstractValue)
    (locals : Locals) : Res (List AbstractValue × Locals) :=
  match is_call_safe_to_leak m function_handle with
  | .ok guaranteed_safe =>
    match m.signatures.get? function_handle.parameters with
    | none => .panicked
    | some parameters =>
      match popCheckLoop "ID leaked through function call." guaranteed_safe
          parameters.tokens.length stack with
      | .ok stack1 =>
        match m.signatures.get? function_handle.return_ with
        | none => .panicked
        | some return_sig =>
          .ok (List.replicate return_sig.tokens.length AbstractValue.NonID ++ stack1, locals)
      | .vmError e => .vmError e
      | .panicked => .panicked
      | .fuelOut => .fuelOut
  | .vmError e => .vmError e
  | .panicked => .panicked
  | .fuelOut => .fuelOut

/-- num_fields from the source: 0 for native field information, otherwise the
number of declared fields. -/
def num_fields (struct_def : StructDefinition) : Nat :=
  match struct_def.field_information with
  | StructFieldInformation.Native => 0
  | StructFieldInformation.Declared fields => fields.length

/-- pack from the source: pop num_fields values (leak error on a popped ID),
then push one NonID for the packed struct. -/
def pack (struct_def : StructDefinition) (stack : List AbstractValue) (locals : Locals) :
    Res (List AbstractValue × Locals) :=
  match popCheckLoop "ID is leaked into a struct." false (num_fields struct_def) stack with
  | .ok stack1 => .ok (AbstractValue.NonID :: stack1, locals)
  | .vmError e => .vmError e
  | .panicked => .panicked
  | .fuelOut => .fuelOut

/-- unpack from the source: pop the struct value (unwrap), resolve the struct
handle (index panics when out of range), push ID when the handle has key and
NonID otherwise, then push NonID for each field after the first (the loop
runs over 1..num_fields, so a struct with zero fields still gets the single
first push). -/
def unpack (m : CompiledModule) (struct_def : StructDefinition) (stack : List AbstractValue)
    (locals : Locals) : Res (List AbstractValue × Locals) :=
  match stack with
  | [] => .panicked
  | _ :: rest =>
    match m.struct_handles.get? struct_def.struct_handle with
    | none => .panicked
    | some handle =>
      .ok (List.replicate (num_fields struct_def - 1) AbstractValue.NonID ++
        (if handle.abilities.has_key then AbstractValue.ID else AbstractValue.NonID) :: rest,
        locals)

/-- Lift a stack-only result to a (stack, locals) result. -/
def mapStack (r : Res (List AbstractValue)) (locals : Locals) : Res (List AbstractValue × Locals) :=
  match r with
  | .ok s => .ok (s, locals)
  | .vmError e => .vmError e
  | .panicked => .panicked
  | .fuelOut => .fuelOut

/-- execute_inner from the source: the per-opcode transfer function on the
operand stack (head of the list is the top of the stack) and the locals map.
Resolvers index into the module tables and panic on out-of-range indices; in
the Module view of BinaryIndexedView struct_def_at and
struct_instantiation_at never return Err, so the error branch of expect_ok is
unreachable and does not appear. -/
def execute_inner (m : CompiledModule) (fv : FunctionView) (stack : List AbstractValue)
    (locals : Locals) (bytecode : Bytecode) : Res (List AbstractValue × Locals) :=
  match bytecode with
  | .Pop =>
    match stack with
    | [] => .panicked
    | _ :: rest => .ok (rest, locals)
  | .CopyLoc l =>
    match mapGet locals l with
    | none => .panicked
    | some value => .ok (value :: stack, locals)
  | .MoveLoc l =>
    match mapGet locals l with
    | none => .panicked
    | some value => .ok (value :: stack, mapRemove locals l)
  | .StLoc l =>
    match stack with
    | [] => .panicked
    | value :: rest => .ok (rest, mapInsert locals l value)
  | .FreezeRef | .ReadRef
  | .CastU8 | .CastU16 | .CastU32 | .CastU64 | .CastU128 | .CastU256
  | .Not | .VecLen _ | .VecPopBack _ =>
    match stack with
    | [] => .panicked
    | _ :: rest => .ok (AbstractValue.NonID :: rest, locals)
  | .Branch _ | .Nop => .ok (stack, locals)
  | .Eq | .Neq | .Add | .Sub | .Mul | .Mod | .Div | .BitOr | .BitAnd | .Xor
  | .Shl | .Shr | .Or | .And | .Lt | .Gt | .Le | .Ge
  | .VecImmBorrow _ | .VecMutBorrow _ =>
    match stack with
    | [] => .panicked
    | _ :: rest =>
      match rest with
      | [] => .panicked
      | _ :: rest2 => .ok (AbstractValue.NonID :: rest2, locals)
  | .WriteRef =>
    match stack with
    | [] => .panicked
    | _ :: rest =>
      match rest with
      | [] => .panicked
      | value :: rest2 =>
        if value = AbstractValue.ID then
          .vmError (move_verification_error "ID is leaked to a reference.")
        else .ok (rest2, locals)
  | .MutBorrowLoc _ | .ImmBorrowLoc _ => .ok (AbstractValue.NonID :: stack, locals)
  | .MutBorrowField _ | .MutBorrowFieldGeneric _
  | .ImmBorrowField _ | .ImmBorrowFieldGeneric _ =>
    match stack with
    | [] => .panicked
    | _ :: rest => .ok (AbstractValue.NonID :: rest, locals)
  | .MoveFrom _ | .MoveFromGeneric _ | .MoveTo _ | .MoveToGeneric _
  | .ImmBorrowGlobal _ | .MutBorrowGlobal _
  | .ImmBorrowGlobalGeneric _ | .MutBorrowGlobalGeneric _
  | .Exists _ | .ExistsGeneric _ => .panicked
  | .Call idx =>
    match m.function_handles.get? idx with
    | none => .panicked
    | some function_handle => call m function_handle stack locals
  | .CallGeneric idx =>
    match m.function_instantiations.get? idx with
    | none => .panicked
    | some func_inst =>
      match m.function_handles.get? func_inst.handle with
      | none => .panicked
      | some function_handle => call m function_handle stack locals
  | .Ret =>
    mapStack (popCheckLoop "ID leaked through function return." false
      fv.return_.tokens.length stack) locals
  | .BrTrue _ | .BrFalse _ | .Abort =>
    match stack with
    | [] => .panicked
    | _ :: rest => .ok (rest, locals)
  | .LdTrue | .LdFalse | .LdU8 _ | .LdU16 _ | .LdU32 _ | .LdU64 _ | .LdU128 _
  | .LdU256 _ | .LdConst _ => .ok (AbstractValue.NonID :: stack, locals)
  | .Pack idx =>
    match m.struct_defs.get? idx with
    | none => .panicked
    | some struct_def => pack struct_def stack locals
  | .PackGeneric idx =>
    match m.struct_instantiations.get? idx with
    | none => .panicked
    | some struct_inst =>
      match m.struct_defs.get? struct_inst.def_ with
      | none => .panicked
      | some struct_def => pack struct_def stack locals
  | .Unpack idx =>
    match m.struct_defs.get? idx with
    | none => .panicked
    | some struct_def => unpack m struct_def stack locals
  | .UnpackGeneric idx =>
    match m.struct_instantiations.get? idx with
    | none => .panicked
    | some struct_inst =>
      match m.struct_defs.get? struct_inst.def_ with
      | none => .panicked
      | some struct_def => unpack m struct_def stack locals
  | .VecPack _ num =>
    match popCheckLoop "ID is leaked into a vector" false num stack with
    | .ok stack1 => .ok (AbstractValue.NonID :: stack1, locals)
    | .vmError e => .vmError e
    | .panicked => .panicked
    | .fuelOut => .fuelOut
  | .VecPushBack _ =>
    match stack with
    | [] => .panicked
    | value :: rest =>
      if value = AbstractValue.ID then
        .vmError (move_verification_error "ID is leaked into a vector")
      else
        match rest with
        | [] => .panicked
        | _ :: rest2 => .ok (rest2, locals)
  | .VecUnpack _ num =>
    match stack with
    | [] => .panicked
    | _ :: rest => .ok (List.replicate num AbstractValue.NonID ++ rest, locals)
  | .VecSwap _ =>
    match stack with
    | [] => .panicked
    | _ :: rest =>
      match rest with
      | [] => .panicked
      | _ :: rest2 =>
        match rest2 with
        | [] => .panicked
        | _ :: rest3 => .ok (rest3, locals)

/-- TransferFunctions::execute from the source: run the inner transfer, then
enforce the end-of-block invariant: at the last opcode of the block a
non-empty stack is an UNKNOWN_INVARIANT_VIOLATION_ERROR (the debug_assert is
a no-op in release builds). -/
def execute (m : CompiledModule) (fv : FunctionView) (stack : List AbstractValue)
    (locals : Locals) (bytecode : Bytecode) (index last_index : Nat) :
    Res (List AbstractValue × Locals) :=
  match execute_inner m fv stack locals bytecode with
  | .ok (stack1, locals1) =>
    if index = last_index ∧ stack1 ≠ [] then .vmError VError.invariantViolation
    else .ok (stack1, locals1)
  | .vmError e => .vmError e
  | .panicked => .panicked
  | .fuelOut => .fuelOut

/-- Modelled from the spec: the branch targets of an opcode, as used by the
external CFG decomposition (move_binary_format, not under src). -/
def Bytecode.offsets : Bytecode → List Nat
  | .BrTrue t => [t]
  | .BrFalse t => [t]
  | .Branch t => [t]
  | _ => []

/-- Modelled from the spec: whether an opcode ends a basic block (an
unconditional or conditional branch, return or abort). -/
def Bytecode.isBranch : Bytecode → Bool
  | .BrTrue _ => true
  | .BrFalse _ => true
  | .Branch _ => true
  | .Ret => true
  | .Abort => true
  | _ => false

/-- Modelled from the spec: offset i starts a basic block when it is the
function entry, a branch target, or the instruction after a block-ending
opcode. -/
def isLeader (code : List Bytecode) (i : Nat) : Bool :=
  (i == 0) ||
    code.enum.any (fun p => p.2.offsets.contains i || (p.2.isBranch && (i == p.1 + 1)))

/-- Modelled from the spec: the sorted list of basic-block leader offsets. -/
def blockStarts (code : List Bytecode) : List Nat :=
  (List.range code.length).filter (isLeader code)

/-- Modelled from the spec: the offset one past the last instruction of the
block led by l (the next leader, or the end of the code). -/
def blockEnd (code : List Bytecode) (l : Nat) : Nat :=
  ((blockStarts code).filter (fun x => l < x)).headD code.length

/-- Modelled from the spec: the instructions of the basic block led by l. -/
def blockCode (code : List Bytecode) (l : Nat) : List Bytecode :=
  (code.drop l).take (blockEnd code l - l)

/-- Modelled from the spec: successor leaders of the block led by l, from its
last instruction: branch targets plus fall-through (none after Ret/Abort or an
unconditional branch). -/
def blockSuccessors (code : List Bytecode) (l : Nat) : List Nat :=
  match code.get? (blockEnd code l - 1) with
  | none => []
  | some b =>
    match b with
    | .Ret => []
    | .Abort => []
    | .Branch t => [t]
    | .BrTrue t => [t] ++ (if blockEnd code l < code.length then [blockEnd code l] else [])
    | .BrFalse t => [t] ++ (if blockEnd code l < code.length then [blockEnd code l] else [])
    | _ => if blockEnd code l < code.length then [blockEnd code l] else []

/-- Modelled from the spec: run the transfer over the instructions of one
basic block (paired with their in-block offsets), signalling the final opcode
through the last-index argument of execute; the block starts with an empty
operand stack and returns its exit locals. -/
def runBlockAux (m : CompiledModule) (fv : FunctionView) (last : Nat) :
    List (Nat × Bytecode) → List AbstractValue → Locals → Res Locals
  | [], _, locals => .ok locals
  | (i, b) :: rest, stack, locals =>
    match execute m fv stack locals b i last with
    | .ok (stack1, locals1) => runBlockAux m fv last rest stack1 locals1
    | .vmError e => .vmError e
    | .panicked => .panicked
    | .fuelOut => .fuelOut

/-- Modelled from the spec: analyze one basic block from its entry state. -/
def runBlock (m : CompiledModule) (fv : FunctionView) (bcode : List Bytecode)
    (entry : AbstractState) : Res Locals :=
  runBlockAux m fv (bcode.length - 1) bcode.enum [] entry.locals

/-- Modelled from the spec: join a block's exit state into one successor's
entry state; a successor with no entry state yet receives the exit state and
counts as changed. -/
def joinIntoPre (inv : List (Nat × AbstractState)) (tgt : Nat) (post : AbstractState) :
    List (Nat × AbstractState) × Bool :=
  match mapGet inv tgt with
  | none => (mapInsert inv tgt post, true)
  | some pre =>
    (mapInsert inv tgt (AbstractState.join pre post).1,
      decide ((AbstractState.join pre post).2 = JoinResult.Changed))

/-- Modelled from the spec: join a block's exit state into every successor. -/
def joinAll : List Nat → List (Nat × AbstractState) → AbstractState →
    List (Nat × AbstractState) × Bool
  | [], inv, _ => (inv, false)
  | t :: ts, inv, post =>
    ((joinAll ts (joinIntoPre inv t post).1 post).1,
      (joinIntoPre inv t post).2 || (joinAll ts (joinIntoPre inv t post).1 post).2)

/-- Modelled from the spec: one full pass of the fixed-point engine: apply
the transfer to each basic block that has an entry state, in order, joining
exit states into successors, and report whether any join changed a state. -/
def runPass (m : CompiledModule) (fv : FunctionView) (code : List Bytecode) :
    List Nat → List (Nat × AbstractState) → Bool → Res (List (Nat × AbstractState) × Bool)
  | [], inv, changed => .ok (inv, changed)
  | l :: ls, inv, changed =>
    match mapGet inv l with
    | none => runPass m fv code ls inv changed
    | some pre =>
      match runBlock m fv (blockCode code l) pre with
      | .ok postLocals =>
        runPass m fv code ls (joinAll (blockSuccessors code l) inv ⟨postLocals⟩).1
          (changed || (joinAll (blockSuccessors code l) inv ⟨postLocals⟩).2)
      | .vmError e => .vmError e
      | .panicked => .panicked
      | .fuelOut => .fuelOut

/-- Modelled from the spec: iterate full passes until a pass produces no
Changed join result; the fuel bounds the number of passes, and running out of
fuel is the distinguished outcome modelling divergence of the engine. -/
def iteratePasses (m : CompiledModule) (fv : FunctionView) (code : List Bytecode)
    (ls : List Nat) : Nat → List (Nat × AbstractState) → Res Unit
  | 0, _ => .fuelOut
  | Nat.succ fuel, inv =>
    match runPass m fv code ls inv false with
    | .ok (inv1, changed) =>
      if changed then iteratePasses m fv code ls fuel inv1 else .ok ()
    | .vmError e => .vmError e
    | .panicked => .panicked
    | .fuelOut => .fuelOut

/-- Modelled from the spec: the fixed-point engine entry point; only the
entry block (leader 0) starts with a state, the initial abstract state. -/
def analyze_function (fuel : Nat) (m : CompiledModule) (fv : FunctionView)
    (code : List Bytecode) (initial : AbstractState) : Res Unit :=
  iteratePasses m fv code (blockStarts code) fuel (mapInsert [] 0 initial)

/-- AbstractState::new from the source: every parameter slot is set to
NonID. -/
def AbstractState.new (nparams : Nat) : AbstractState :=
  ⟨(List.range nparams).foldl (fun l i => mapInsert l i AbstractValue.NonID) []⟩

/-- verify_id_leak from the source, iterated over the function definitions:
functions without a body are skipped; otherwise the handle and its signatures
are resolved (indexing panics when out of range), the initial state is built
from the parameter count, and the analyzer runs; the first error aborts the
module. -/
def verifyDefs (fuel : Nat) (m : CompiledModule) : List FunctionDefinition → Res Unit
  | [] => .ok ()
  | func_def :: rest =>
    match func_def.code with
    | none => verifyDefs fuel m rest
    | some code_unit =>
      match m.function_handles.get? func_def.function with
      | none => .panicked
      | some handle =>
        match m.signatures.get? handle.parameters, m.signatures.get? handle.return_ with
        | some psig, some rsig =>
          match analyze_function fuel m ⟨psig, rsig⟩ code_unit.code
              (AbstractState.new psig.tokens.length) with
          | .ok _ => verifyDefs fuel m rest
          | .vmError e => .vmError e
          | .panicked => .panicked
          | .fuelOut => .fuelOut
        | _, _ => .panicked

/-- verify_id_leak from the source. -/
def verify_id_leak (fuel : Nat) (m : CompiledModule) : Res Unit :=
  verifyDefs fuel m m.function_defs

/-- verify_module from the source: the exported entry point. -/
def verify_module (fuel : Nat) (m : CompiledModule) : Res Unit :=
  verify_id_leak fuel m

/-- Does this opcode unpack a struct whose handle has the key ability?  An
opcode whose resolution fails counts as not doing so (the transfer panics
there instead of producing an ID). -/
def bytecodeNoKeyUnpack (m : CompiledModule) : Bytecode → Bool
  | .Unpack idx =>
    match m.struct_defs.get? idx with
    | none => true
    | some sd =>
      match m.struct_handles.get? sd.struct_handle with
      | none => true
      | some h => !h.abilities.has_key
  | .UnpackGeneric idx =>
    match m.struct_instantiations.get? idx with
    | none => true
    | some si =>
      match m.struct_defs.get? si.def_ with
      | none => true
      | some sd =>
        match m.struct_handles.get? sd.struct_handle with
        | none => true
        | some h => !h.abilities.has_key
  | _ => true

/-- No function body of the module contains an Unpack or UnpackGeneric of a
key-bearing struct. -/
def moduleNoKeyUnpack (m : CompiledModule) : Bool :=
  m.function_defs.all fun fd =>
    match fd.code with
    | none => true
    | some cu => cu.code.all (bytecodeNoKeyUnpack m)

/-- Every value on the operand stack is NonID. -/
def stackNonID (s : List AbstractValue) : Prop := ∀ v ∈ s, v = AbstractValue.NonID

/-- Every value in a locals map is NonID. -/
def localsNonID (l : Locals) : Prop := ∀ p ∈ l, p.2 = AbstractValue.NonID

/-- Every value of an abstract state is NonID. -/
def stateNonID (s : AbstractState) : Prop := localsNonID s.locals

/-- Every state in the engine's entry-state map is all-NonID. -/
def invNonID (inv : List (Nat × AbstractState)) : Prop := ∀ p ∈ inv, stateNonID p.2

/-- Conclusion of the preservation argument for one transfer step from an
all-NonID state: the step panics or succeeds with an all-NonID result (in
particular it reports no error at all). -/
def stepPreserves (r : Res (List AbstractValue × Locals)) : Prop :=
  r = Res.panicked ∨
    ∃ s1 l1, r = Res.ok (s1, l1) ∧ stackNonID s1 ∧ localsNonID l1

/-- Conclusion of the preservation argument for a block run from an all-NonID
entry: no leak is reported and a successful exit state is all-NonID. -/
def blockPreserves (r : Res Locals) : Prop :=
  Res.isLeak r = false ∧ ∀ l1, r = Res.ok l1 → localsNonID l1

/-- Conclusion of the preservation argument for one engine pass: no leak is
reported and a successful updated entry-state map is all-NonID. -/
def passPreserves (r : Res (List (Nat × AbstractState) × Bool)) : Prop :=
  Res.isLeak r = false ∧ ∀ inv1 c1, r = Res.ok (inv1, c1) → invNonID inv1

/-- A module with empty tables, for transfer-level statements that do not
resolve anything. -/
def emptyModule : CompiledModule := ⟨[], [], [], [], [], [], [], [], [], []⟩

/-- A function view with no parameters and no returns. -/
def fvNoReturns : FunctionView := ⟨⟨[]⟩, ⟨[]⟩⟩

/-- A function view with no parameters and one return value. -/
def fvOneReturn : FunctionView := ⟨⟨[]⟩, ⟨[()]⟩⟩

/-- A module whose single function body leaves a value on the stack at the
end of its block: LdTrue then Ret (with no declared returns). -/
def stackLeftModule : CompiledModule :=
  ⟨[], [], [⟨0, 0, 0, 0⟩], [], [], [], [⟨[]⟩], [], [],
    [⟨0, some ⟨0, [Bytecode.LdTrue, Bytecode.Ret]⟩⟩]⟩

/-- A module whose single function body starts with a forbidden global-storage
opcode. -/
def forbiddenOpModule : CompiledModule :=
  ⟨[], [], [⟨0, 0, 0, 0⟩], [], [], [], [⟨[]⟩], [], [],
    [⟨0, some ⟨0, [Bytecode.MoveFrom 0, Bytecode.Ret]⟩⟩]⟩

/-- A struct definition with native field information (num_fields = 0) whose
handle (index 0) is looked up in keyStructModule. -/
def nativeKeyStructDef : StructDefinition := ⟨0, StructFieldInformation.Native⟩

/-- A module whose struct handle 0 has the key ability. -/
def keyStructModule : CompiledModule :=
  ⟨[], [⟨⟨true⟩⟩], [], [], [nativeKeyStructDef], [], [], [], [], []⟩

/-- A struct definition with two declared fields whose handle (index 0, with
key) is looked up in keyStructModule. -/
def declaredKeyStructDef : StructDefinition :=
  ⟨0, StructFieldInformation.Declared [⟨0, 0⟩, ⟨1, 0⟩]⟩

/-- The forbidden global-storage opcode class: checked by a sibling verifier
and treated as unreachable by this one. -/
def isForbiddenOpcode : Bytecode → Bool
  | .MoveFrom _ | .MoveFromGeneric _ | .MoveTo _ | .MoveToGeneric _
  | .ImmBorrowGlobal _ | .MutBorrowGlobal _
  | .ImmBorrowGlobalGeneric _ | .MutBorrowGlobalGeneric _
  | .Exists _ | .ExistsGeneric _ => true
  | _ => false

/-- The body of loopModule's single function: store an ID into local 0, then
loop through a block that overwrites local 0 with NonID and branches back to
itself. -/
def loopCode : List Bytecode :=
  [Bytecode.LdTrue, Bytecode.Unpack 0, Bytecode.StLoc 0,
    Bytecode.LdTrue, Bytecode.StLoc 0, Bytecode.Branch 3]

/-- A module whose single function runs loopCode: the entry state of the loop
block keeps local 0 at ID while the incoming exit state has it at NonID, so
every join of the back edge reports Changed. -/
def loopModule : CompiledModule :=
  ⟨[], [⟨⟨true⟩⟩], [⟨0, 0, 0, 0⟩], [], [nativeKeyStructDef], [], [⟨[]⟩], [], [],
    [⟨0, some ⟨0, loopCode⟩⟩]⟩

/-- The entry-state map the analysis of loopModule reaches after one pass and
then never leaves, although every later pass still reports a change. -/
def loopInv : List (Nat × AbstractState) :=
  [(0, ⟨[]⟩), (3, ⟨[(0, AbstractValue.ID)]⟩)]

/-- A module whose function handle 0 is object::delete at the framework
address, with one parameter and no returns. -/
def frameworkDeleteModule : CompiledModule :=
  ⟨[⟨0, 0⟩], [], [⟨0, 1, 0, 1⟩], [], [], [], [⟨[()]⟩, ⟨[]⟩],
    ["object", "delete"], [SUI_FRAMEWORK_ADDRESS], []⟩

/-- The same shape as frameworkDeleteModule but at a non-framework address:
its transfer::delete_child_object is not allowlisted. -/
def userDeleteModule : CompiledModule :=
  ⟨[⟨0, 0⟩], [], [⟨0, 1, 0, 1⟩], [], [], [], [⟨[()]⟩, ⟨[]⟩],
    ["transfer", "delete_child_object"], [99], []⟩

/-! Theorems. -/

/-- C9: the lattice laws of AbstractValue::join: idempotent, commutative,
associative, and NonID joined with ID is ID. -/
theorem abstract_value_join_lattice :
    ∀ u v w : AbstractValue,
      AbstractValue.join v v = v ∧
      AbstractValue.join u v = AbstractValue.join v u ∧
      AbstractValue.join (AbstractValue.join u v) w =
        AbstractValue.join u (AbstractValue.join v w) ∧
      AbstractValue.join AbstractValue.NonID AbstractValue.ID = AbstractValue.ID := by
  intro u v w
  cases u <;> cases v <;> cases w <;> exact ⟨rfl, rfl, rfl, rfl⟩

/-- Helper for C3: once the analysis of loopModule reaches the entry-state map
loopInv, every further pass returns the same map while still reporting a
change, so the iteration exhausts any amount of fuel. -/
theorem loopInv_fuelOut (fuel : Nat) :
    iteratePasses loopModule ⟨⟨[]⟩, ⟨[]⟩⟩ loopCode (blockStarts loopCode) fuel loopInv =
      Res.fuelOut := by
  induction fuel with
  | zero => rfl
  | succ n ih =>
    have hpass : runPass loopModule ⟨⟨[]⟩, ⟨[]⟩⟩ loopCode (blockStarts loopCode)
        loopInv false = Res.ok (loopInv, true) := by decide
    simp only [iteratePasses, hpass]
    exact ih

/-- C3 (code bug): AbstractState::join reports Changed on the state
self = [0 maps to ID] joined with state = [0 maps to NonID] although the
joined state equals self, contradicting the claim that join returns Unchanged
whenever the post-join state equals the pre-join state; consequently the
fixed-point iteration is not bounded by the number of locals plus one: on
loopModule's function (one local), the modelled driver exhausts any amount
of fuel. -/
theorem join_changed_on_equal_state :
    (AbstractState.join ⟨[(0, AbstractValue.ID)]⟩ ⟨[(0, AbstractValue.NonID)]⟩ =
      (⟨[(0, AbstractValue.ID)]⟩, JoinResult.Changed)) ∧
    (∀ fuel, analyze_function fuel loopModule ⟨⟨[]⟩, ⟨[]⟩⟩ loopCode (AbstractState.new 0) =
      Res.fuelOut) := by
  constructor
  · decide
  · intro fuel
    cases fuel with
    | zero => rfl
    | succ n =>
      have hpass1 : runPass loopModule ⟨⟨[]⟩, ⟨[]⟩⟩ loopCode (blockStarts loopCode)
          (mapInsert [] 0 (AbstractState.new 0)) false = Res.ok (loopInv, true) := by decide
      show iteratePasses loopModule ⟨⟨[]⟩, ⟨[]⟩⟩ loopCode (blockStarts loopCode)
          (Nat.succ n) (mapInsert [] 0 (AbstractState.new 0)) = Res.fuelOut
      simp only [iteratePasses, hpass1]
      exact loopInv_fuelOut n

/-- C4: is_call_safe_to_leak returns true exactly when the callee's module
address resolves to the framework address and the names are object::delete or
transfer::delete_child_object; in particular a callee at a non-framework
address is never allowlisted (the early return happens before any name is
compared), so both allowlist entries require the framework address. -/
theorem allowlist_matching (m : CompiledModule) (fh : FunctionHandle)
    (mh : ModuleHandle) (addr : Nat) (mname fname : String)
    (h1 : m.module_handles.get? fh.module = some mh)
    (h2 : m.address_identifiers.get? mh.address = some addr)
    (h3 : m.identifiers.get? mh.name = some mname)
    (h4 : m.identifiers.get? fh.name = some fname) :
    (is_call_safe_to_leak m fh = Res.ok true ∨ is_call_safe_to_leak m fh = Res.ok false) ∧
    (is_call_safe_to_leak m fh = Res.ok true ↔
      (addr = SUI_FRAMEWORK_ADDRESS ∧
        ((mname = "object" ∧ fname = "delete") ∨
         (mname = "transfer" ∧ fname = "delete_child_object")))) := by
  unfold is_call_safe_to_leak
  simp only [h1, h2]
  by_cases ha : addr = SUI_FRAMEWORK_ADDRESS
  · rw [if_pos ha]
    simp only [h3, h4]
    constructor
    · by_cases hb : ((mname == OBJECT_MODULE_NAME && fname == "delete")
          || (mname == "transfer" && fname == "delete_child_object")) = true
      · rw [hb]; exact Or.inl rfl
      · rw [Bool.not_eq_true] at hb; rw [hb]; exact Or.inr rfl
    · constructor
      · intro hok
        have hb := Res.ok.inj hok
        refine ⟨ha, ?_⟩
        simp only [Bool.or_eq_true, Bool.and_eq_true, beq_iff_eq, OBJECT_MODULE_NAME] at hb
        exact hb
      · intro hp
        have hb : ((mname == OBJECT_MODULE_NAME && fname == "delete")
            || (mname == "transfer" && fname == "delete_child_object")) = true := by
          simp only [Bool.or_eq_true, Bool.and_eq_true, beq_iff_eq, OBJECT_MODULE_NAME]
          exact hp.2
        rw [hb]
  · rw [if_neg ha]
    refine ⟨Or.inr rfl, ?_⟩
    constructor
    · intro hok
      exact absurd (Res.ok.inj hok) (by simp)
    · intro hp
      exact absurd hp.1 ha

/-- Witness for C4: the framework object::delete handle of
frameworkDeleteModule is allowlisted. -/
theorem allowlist_matching_witness :
    is_call_safe_to_leak frameworkDeleteModule ⟨0, 1, 0, 1⟩ = Res.ok true :=
  (allowlist_matching frameworkDeleteModule ⟨0, 1, 0, 1⟩ ⟨0, 0⟩ SUI_FRAMEWORK_ADDRESS
    "object" "delete" rfl rfl rfl rfl).2.mpr ⟨rfl, Or.inl ⟨rfl, rfl⟩⟩

/-- C5 (amended): a forbidden-class opcode makes the transfer panic (the
source uses the panic macro, which fires in release builds as well); no
invariant-violation error is returned. -/
theorem forbidden_opcode_panics (m : CompiledModule) (fv : FunctionView)
    (stack : List AbstractValue) (locals : Locals) (b : Bytecode)
    (hb : isForbiddenOpcode b = true) :
    execute_inner m fv stack locals b = Res.panicked := by
  cases b <;> first | rfl | exact Bool.noConfusion hb

/-- Witness for C5: MoveFrom panics. -/
theorem forbidden_opcode_panics_witness :
    execute_inner emptyModule fvNoReturns [] [] (Bytecode.MoveFrom 0) = Res.panicked :=
  forbidden_opcode_panics emptyModule fvNoReturns [] [] (Bytecode.MoveFrom 0) rfl

/-- Counterexample for C5: on a module whose function body reaches MoveFrom,
verify_module panics (in the release semantics of the embedding) instead of
returning the unknown-invariant-violation error the claim promises. -/
theorem forbidden_opcode_cex :
    verify_module 1 forbiddenOpModule = Res.panicked ∧
    verify_module 1 forbiddenOpModule ≠ Res.vmError VError.invariantViolation := by
  exact ⟨by decide, by decide⟩

/-- C6 (amended): CopyLoc pushes the value stored for local i and MoveLoc
additionally removes the entry, but only when the local is present in the
map; when locals[i] has no entry both transfers panic (unwrap on None)
instead of defaulting to NonID. -/
theorem locals_read_amended (m : CompiledModule) (fv : FunctionView)
    (stack : List AbstractValue) (locals : Locals) (i : Nat) :
    (∀ v, mapGet locals i = some v →
      execute_inner m fv stack locals (Bytecode.CopyLoc i) = Res.ok (v :: stack, locals) ∧
      execute_inner m fv stack locals (Bytecode.MoveLoc i) =
        Res.ok (v :: stack, mapRemove locals i)) ∧
    (mapGet locals i = none →
      execute_inner m fv stack locals (Bytecode.CopyLoc i) = Res.panicked ∧
      execute_inner m fv stack locals (Bytecode.MoveLoc i) = Res.panicked) := by
  constructor
  · intro v hv
    constructor <;> simp only [execute_inner, hv]
  · intro hv
    constructor <;> simp only [execute_inner, hv]

/-- Witness for C6: reading a present local pushes its value. -/
theorem locals_read_amended_witness :
    execute_inner emptyModule fvNoReturns [] [(0, AbstractValue.NonID)]
      (Bytecode.CopyLoc 0) = Res.ok ([AbstractValue.NonID], [(0, AbstractValue.NonID)]) :=
  ((locals_read_amended emptyModule fvNoReturns [] [(0, AbstractValue.NonID)] 0).1
    AbstractValue.NonID rfl).1

/-- Counterexample for C6: with an empty locals map, CopyLoc 0 and MoveLoc 0
panic, refuting the claim that the transfer is total and treats an absent
local as NonID. -/
theorem copyloc_absent_local_cex :
    execute_inner emptyModule fvNoReturns [] [] (Bytecode.CopyLoc 0) = Res.panicked ∧
    execute_inner emptyModule fvNoReturns [] [] (Bytecode.MoveLoc 0) = Res.panicked :=
  ⟨rfl, rfl⟩

/-- C7: when the inner transfer of a block's last opcode succeeds but leaves a
non-empty stack, execute returns the unknown-invariant-violation error and
not a leak error; when it leaves an empty stack, execute returns the inner
result unchanged. -/
theorem end_of_block_invariant (m : CompiledModule) (fv : FunctionView)
    (stack : List AbstractValue) (locals : Locals) (b : Bytecode)
    (index last_index : Nat) (stack1 : List AbstractValue) (locals1 : Locals)
    (hinner : execute_inner m fv stack locals b = Res.ok (stack1, locals1)) :
    (index = last_index → stack1 ≠ [] →
      execute m fv stack locals b index last_index = Res.vmError VError.invariantViolation ∧
      ∀ msg, execute m fv stack locals b index last_index ≠
        Res.vmError (VError.verificationError msg)) ∧
    (stack1 = [] →
      execute m fv stack locals b index last_index = Res.ok (stack1, locals1)) := by
  constructor
  · intro hidx hne
    have he : execute m fv stack locals b index last_index =
        Res.vmError VError.invariantViolation := by
      simp only [execute, hinner]
      rw [if_pos ⟨hidx, hne⟩]
    refine ⟨he, fun msg => by rw [he]; simp⟩
  · intro hempty
    simp only [execute, hinner]
    rw [if_neg]
    intro hc
    exact hc.2 hempty

/-- Witness for C7: LdTrue at the last offset leaves a value on the stack and
execute reports the invariant violation; Pop leaves an empty stack and
execute succeeds. -/
theorem end_of_block_invariant_witness :
    execute emptyModule fvNoReturns [] [] Bytecode.LdTrue 0 0 =
      Res.vmError VError.invariantViolation ∧
    execute emptyModule fvNoReturns [AbstractValue.NonID] [] Bytecode.Pop 0 0 =
      Res.ok ([], []) := by
  constructor
  · exact ((end_of_block_invariant emptyModule fvNoReturns [] [] Bytecode.LdTrue 0 0
      [AbstractValue.NonID] [] rfl).1 rfl (by simp)).1
  · exact (end_of_block_invariant emptyModule fvNoReturns [AbstractValue.NonID] []
      Bytecode.Pop 0 0 [] [] rfl).2 rfl

/-- Unfolding the pop loop one step on a non-empty stack. -/
theorem popCheckLoop_cons (msg : String) (exempt : Bool) (n : Nat) (v : AbstractValue)
    (rest : List AbstractValue) :
    popCheckLoop msg exempt (n + 1) (v :: rest) =
      if v = AbstractValue.ID ∧ exempt = false then Res.vmError (move_verification_error msg)
      else popCheckLoop msg exempt n rest := rfl

/-- The pop loop pops exactly n values when the stack is deep enough and no
check fires because every popped value is NonID. -/
theorem popCheckLoop_nonid (msg : String) (exempt : Bool) :
    ∀ (n : Nat) (stack : List AbstractValue), stackNonID stack → n ≤ stack.length →
      popCheckLoop msg exempt n stack = Res.ok (stack.drop n) := by
  intro n
  induction n with
  | zero => intro stack _ _; rfl
  | succ k ih =>
    intro stack hs hlen
    cases stack with
    | nil => simp at hlen
    | cons v rest =>
      have hv : v = AbstractValue.NonID := hs v (List.mem_cons_self v rest)
      rw [popCheckLoop_cons]
      rw [if_neg]
      · exact ih rest (fun w hw => hs w (List.mem_cons_of_mem v hw))
          (Nat.le_of_succ_le_succ hlen)
      · intro hc
        rw [hv] at hc
        exact AbstractValue.noConfusion hc.1

/-- The pop loop of an exempt (guaranteed safe) call never errs: it pops n
values whatever they are, as long as the stack is deep enough. -/
theorem popCheckLoop_exempt (msg : String) :
    ∀ (n : Nat) (stack : List AbstractValue), n ≤ stack.length →
      popCheckLoop msg true n stack = Res.ok (stack.drop n) := by
  intro n
  induction n with
  | zero => intro stack _; rfl
  | succ k ih =>
    intro stack hlen
    cases stack with
    | nil => simp at hlen
    | cons v rest =>
      rw [popCheckLoop_cons]
      rw [if_neg]
      · exact ih rest (Nat.le_of_succ_le_succ hlen)
      · intro hc
        exact Bool.noConfusion hc.2

/-- The pop loop panics on underflow when the popped values are all NonID. -/
theorem popCheckLoop_underflow (msg : String) (exempt : Bool) :
    ∀ (n : Nat) (stack : List AbstractValue), stackNonID stack → stack.length < n →
      popCheckLoop msg exempt n stack = Res.panicked := by
  intro n
  induction n with
  | zero => intro stack _ h; exact absurd h (Nat.not_lt_zero _)
  | succ k ih =>
    intro stack hs hlen
    cases stack with
    | nil => rfl
    | cons v rest =>
      have hv : v = AbstractValue.NonID := hs v (List.mem_cons_self v rest)
      rw [popCheckLoop_cons]
      rw [if_neg]
      · exact ih rest (fun w hw => hs w (List.mem_cons_of_mem v hw))
          (Nat.lt_of_succ_lt_succ hlen)
      · intro hc
        rw [hv] at hc
        exact AbstractValue.noConfusion hc.1

/-- The non-exempt pop loop reports the leak when some value among the n
popped ones is ID and the stack is deep enough. -/
theorem popCheckLoop_leak (msg : String) :
    ∀ (n : Nat) (stack : List AbstractValue),
      (∃ i, i < n ∧ stack.get? i = some AbstractValue.ID) → n ≤ stack.length →
      popCheckLoop msg false n stack = Res.vmError (move_verification_error msg) := by
  intro n
  induction n with
  | zero =>
    intro stack hid _
    obtain ⟨i, hi, _⟩ := hid
    exact absurd hi (Nat.not_lt_zero i)
  | succ k ih =>
    intro stack hid hlen
    cases stack with
    | nil => simp at hlen
    | cons v rest =>
      by_cases hv : v = AbstractValue.ID
      · rw [popCheckLoop_cons]
        rw [if_pos ⟨hv, rfl⟩]
      · rw [popCheckLoop_cons]
        rw [if_neg (fun hc => hv hc.1)]
        obtain ⟨i, hi, hg⟩ := hid
        cases i with
        | zero => exact absurd (Option.some.inj hg) hv
        | succ j =>
          exact ih rest ⟨j, Nat.lt_of_succ_lt_succ hi, hg⟩ (Nat.le_of_succ_le_succ hlen)

/-- is_call_safe_to_leak either panics on a failed resolution or returns a
boolean; it never returns a PartialVMError. -/
theorem is_call_shape (m : CompiledModule) (fh : FunctionHandle) :
    is_call_safe_to_leak m fh = Res.panicked ∨
      ∃ b, is_call_safe_to_leak m fh = Res.ok b := by
  rcases Option.eq_none_or_eq_some (m.module_handles.get? fh.module) with hmh | ⟨mh, hmh⟩
  · refine Or.inl ?_
    simp only [is_call_safe_to_leak, hmh]
  · rcases Option.eq_none_or_eq_some (m.address_identifiers.get? mh.address) with
      haddr | ⟨addr, haddr⟩
    · refine Or.inl ?_
      simp only [is_call_safe_to_leak, hmh, haddr]
    · by_cases ha : addr = SUI_FRAMEWORK_ADDRESS
      · rcases Option.eq_none_or_eq_some (m.identifiers.get? mh.name) with hmn | ⟨mn, hmn⟩
        · refine Or.inl ?_
          simp only [is_call_safe_to_leak, hmh, haddr, if_pos ha, hmn]
        · rcases Option.eq_none_or_eq_some (m.identifiers.get? fh.name) with hfn | ⟨fn, hfn⟩
          · refine Or.inl ?_
            simp only [is_call_safe_to_leak, hmh, haddr, if_pos ha, hmn, hfn]
          · refine Or.inr ⟨(mn == OBJECT_MODULE_NAME && fn == "delete")
              || (mn == "transfer" && fn == "delete_child_object"), ?_⟩
            simp only [is_call_safe_to_leak, hmh, haddr, if_pos ha, hmn, hfn]
      · refine Or.inr ⟨false, ?_⟩
        simp only [is_call_safe_to_leak, hmh, haddr, if_neg ha]

/-- A non-allowlisted call with an ID among its popped arguments reports the
call leak. -/
theorem call_leak (m : CompiledModule) (fh : FunctionHandle) (psig : Signature)
    (stack : List AbstractValue) (locals : Locals)
    (hsafe : is_call_safe_to_leak m fh = Res.ok false)
    (hp : m.signatures.get? fh.parameters = some psig)
    (hlen : psig.tokens.length ≤ stack.length)
    (hid : ∃ i, i < psig.tokens.length ∧ stack.get? i = some AbstractValue.ID) :
    call m fh stack locals =
      Res.vmError (move_verification_error "ID leaked through function call.") := by
  unfold call
  simp only [hsafe, hp,
    popCheckLoop_leak "ID leaked through function call." psig.tokens.length stack hid hlen]

/-- An allowlisted call never errs: it pops the parameters whatever they are
and pushes one NonID per return value. -/
theorem call_safe_ok (m : CompiledModule) (fh : FunctionHandle) (psig rsig : Signature)
    (stack : List AbstractValue) (locals : Locals)
    (hsafe : is_call_safe_to_leak m fh = Res.ok true)
    (hp : m.signatures.get? fh.parameters = some psig)
    (hr : m.signatures.get? fh.return_ = some rsig)
    (hlen : psig.tokens.length ≤ stack.length) :
    call m fh stack locals =
      Res.ok (List.replicate rsig.tokens.length AbstractValue.NonID ++
        stack.drop psig.tokens.length, locals) := by
  unfold call
  simp only [hsafe, hp,
    popCheckLoop_exempt "ID leaked through function call." psig.tokens.length stack hlen, hr]

/-- C1 (amended): sink soundness with the reference slots excluded.  For Ret,
VecPack, Pack, PackGeneric and a non-allowlisted Call or CallGeneric, an ID
anywhere among the popped values produces the corresponding leak error, and
an allowlisted Call or CallGeneric never errs; but WriteRef and VecPushBack
check only their value operand: the popped reference (the first value popped
by WriteRef, the second popped by VecPushBack) is discarded unchecked. -/
theorem sink_soundness_amended :
    (∀ (m : CompiledModule) (fv : FunctionView) (stack : List AbstractValue) (locals : Locals),
      fv.return_.tokens.length ≤ stack.length →
      (∃ i, i < fv.return_.tokens.length ∧ stack.get? i = some AbstractValue.ID) →
      execute_inner m fv stack locals Bytecode.Ret =
        Res.vmError (move_verification_error "ID leaked through function return.")) ∧
    (∀ (m : CompiledModule) (fv : FunctionView) (stack : List AbstractValue) (locals : Locals)
      (s n : Nat),
      n ≤ stack.length →
      (∃ i, i < n ∧ stack.get? i = some AbstractValue.ID) →
      execute_inner m fv stack locals (Bytecode.VecPack s n) =
        Res.vmError (move_verification_error "ID is leaked into a vector")) ∧
    (∀ (m : CompiledModule) (fv : FunctionView) (stack : List AbstractValue) (locals : Locals)
      (idx : Nat) (sd : StructDefinition),
      m.struct_defs.get? idx = some sd →
      num_fields sd ≤ stack.length →
      (∃ i, i < num_fields sd ∧ stack.get? i = some AbstractValue.ID) →
      execute_inner m fv stack locals (Bytecode.Pack idx) =
        Res.vmError (move_verification_error "ID is leaked into a struct.")) ∧
    (∀ (m : CompiledModule) (fv : FunctionView) (stack : List AbstractValue) (locals : Locals)
      (idx : Nat) (si : StructInstantiation) (sd : StructDefinition),
      m.struct_instantiations.get? idx = some si →
      m.struct_defs.get? si.def_ = some sd →
      num_fields sd ≤ stack.length →
      (∃ i, i < num_fields sd ∧ stack.get? i = some AbstractValue.ID) →
      execute_inner m fv stack locals (Bytecode.PackGeneric idx) =
        Res.vmError (move_verification_error "ID is leaked into a struct.")) ∧
    (∀ (m : CompiledModule) (fv : FunctionView) (stack : List AbstractValue) (locals : Locals)
      (idx : Nat) (fh : FunctionHandle) (psig : Signature),
      m.function_handles.get? idx = some fh →
      is_call_safe_to_leak m fh = Res.ok false →
      m.signatures.get? fh.parameters = some psig →
      psig.tokens.length ≤ stack.length →
      (∃ i, i < psig.tokens.length ∧ stack.get? i = some AbstractValue.ID) →
      execute_inner m fv stack locals (Bytecode.Call idx) =
        Res.vmError (move_verification_error "ID leaked through function call.")) ∧
    (∀ (m : CompiledModule) (fv : FunctionView) (stack : List AbstractValue) (locals : Locals)
      (idx : Nat) (fh : FunctionHandle) (psig rsig : Signature),
      m.function_handles.get? idx = some fh →
      is_call_safe_to_leak m fh = Res.ok true →
      m.signatures.get? fh.parameters = some psig →
      m.signatures.get? fh.return_ = some rsig →
      psig.tokens.length ≤ stack.length →
      execute_inner m fv stack locals (Bytecode.Call idx) =
        Res.ok (List.replicate rsig.tokens.length AbstractValue.NonID ++
          stack.drop psig.tokens.length, locals)) ∧
    (∀ (m : CompiledModule) (fv : FunctionView) (stack : List AbstractValue) (locals : Locals)
      (idx : Nat) (fi : FunctionInstantiation) (fh : FunctionHandle) (psig : Signature),
      m.function_instantiations.get? idx = some fi →
      m.function_handles.get? fi.handle = some fh →
      is_call_safe_to_leak m fh = Res.ok false →
      m.signatures.get? fh.parameters = some psig →
      psig.tokens.length ≤ stack.length →
      (∃ i, i < psig.tokens.length ∧ stack.get? i = some AbstractValue.ID) →
      execute_inner m fv stack locals (Bytecode.CallGeneric idx) =
        Res.vmError (move_verification_error "ID leaked through function call.")) ∧
    (∀ (m : CompiledModule) (fv : FunctionView) (stack : List AbstractValue) (locals : Locals)
      (idx : Nat) (fi : FunctionInstantiation) (fh : FunctionHandle) (psig rsig : Signature),
      m.function_instantiations.get? idx = some fi →
      m.function_handles.get? fi.handle = some fh →
      is_call_safe_to_leak m fh = Res.ok true →
      m.signatures.get? fh.parameters = some psig →
      m.signatures.get? fh.return_ = some rsig →
      psig.tokens.length ≤ stack.length →
      execute_inner m fv stack locals (Bytecode.CallGeneric idx) =
        Res.ok (List.replicate rsig.tokens.length AbstractValue.NonID ++
          stack.drop psig.tokens.length, locals)) ∧
    (∀ (m : CompiledModule) (fv : FunctionView) (v r : AbstractValue)
      (rest : List AbstractValue) (locals : Locals) (s : Nat),
      execute_inner m fv (v :: r :: rest) locals (Bytecode.VecPushBack s) =
        if v = AbstractValue.ID then
          Res.vmError (move_verification_error "ID is leaked into a vector")
        else Res.ok (rest, locals)) ∧
    (∀ (m : CompiledModule) (fv : FunctionView) (r v : AbstractValue)
      (rest : List AbstractValue) (locals : Locals),
      execute_inner m fv (r :: v :: rest) locals Bytecode.WriteRef =
        if v = AbstractValue.ID then
          Res.vmError (move_verification_error "ID is leaked to a reference.")
        else Res.ok (rest, locals)) := by
  refine ⟨?_, ?_, ?_, ?_, ?_, ?_, ?_, ?_, ?_, ?_⟩
  · intro m fv stack locals hlen hid
    show mapStack (popCheckLoop "ID leaked through function return." false
      fv.return_.tokens.length stack) locals = _
    rw [popCheckLoop_leak "ID leaked through function return."
      fv.return_.tokens.length stack hid hlen]
    rfl
  · intro m fv stack locals s n hlen hid
    simp only [execute_inner,
      popCheckLoop_leak "ID is leaked into a vector" n stack hid hlen]
  · intro m fv stack locals idx sd hsd hlen hid
    simp only [execute_inner, hsd, pack,
      popCheckLoop_leak "ID is leaked into a struct." (num_fields sd) stack hid hlen]
  · intro m fv stack locals idx si sd hsi hsd hlen hid
    simp only [execute_inner, hsi, hsd, pack,
      popCheckLoop_leak "ID is leaked into a struct." (num_fields sd) stack hid hlen]
  · intro m fv stack locals idx fh psig hfh hsafe hp hlen hid
    simp only [execute_inner, hfh, call_leak m fh psig stack locals hsafe hp hlen hid]
  · intro m fv stack locals idx fh psig rsig hfh hsafe hp hr hlen
    simp only [execute_inner, hfh, call_safe_ok m fh psig rsig stack locals hsafe hp hr hlen]
  · intro m fv stack locals idx fi fh psig hfi hfh hsafe hp hlen hid
    simp only [execute_inner, hfi, hfh, call_leak m fh psig stack locals hsafe hp hlen hid]
  · intro m fv stack locals idx fi fh psig rsig hfi hfh hsafe hp hr hlen
    simp only [execute_inner, hfi, hfh,
      call_safe_ok m fh psig rsig stack locals hsafe hp hr hlen]
  · intro m fv v r rest locals s
    simp only [execute_inner]
  · intro m fv r v rest locals
    simp only [execute_inner]

/-- Witness for C1: returning with an ID on the stack produces the return
leak; the allowlisted object::delete call consumes an ID without error. -/
theorem sink_soundness_amended_witness :
    execute_inner emptyModule fvOneReturn [AbstractValue.ID] [] Bytecode.Ret =
      Res.vmError (move_verification_error "ID leaked through function return.") ∧
    execute_inner frameworkDeleteModule fvNoReturns [AbstractValue.ID] [] (Bytecode.Call 0) =
      Res.ok ([], []) := by
  constructor
  · exact sink_soundness_amended.1 emptyModule fvOneReturn [AbstractValue.ID] []
      (by decide) ⟨0, by decide, rfl⟩
  · exact sink_soundness_amended.2.2.2.2.2.1 frameworkDeleteModule fvNoReturns
      [AbstractValue.ID] [] 0 ⟨0, 1, 0, 1⟩ ⟨[()]⟩ ⟨[]⟩ rfl allowlist_matching_witness rfl rfl
      (by decide)

/-- Counterexample for C1: WriteRef pops two values, the reference on top and
the value below; with an ID in the popped reference slot and a NonID value,
the transfer succeeds even though a popped value is ID, refuting the claim
that any popped ID produces a leak error. -/
theorem writeref_ref_slot_unchecked_cex :
    execute_inner emptyModule fvNoReturns [AbstractValue.ID, AbstractValue.NonID] []
      Bytecode.WriteRef = Res.ok ([], []) := rfl

/-- The element at the join point of replicate and a cons. -/
theorem get_replicate_append_boundary {α : Type} (x y : α) (l : List α) :
    ∀ n, (List.replicate n x ++ y :: l).get? n = some y
  | 0 => rfl
  | n + 1 => get_replicate_append_boundary x y l n

/-- Elements strictly inside the replicate prefix. -/
theorem get_replicate_append_lt {α : Type} (x : α) (tl : List α) :
    ∀ n i, i < n → (List.replicate n x ++ tl).get? i = some x
  | 0, i, h => absurd h (Nat.not_lt_zero i)
  | _ + 1, 0, _ => rfl
  | n + 1, i + 1, h => get_replicate_append_lt x tl n i (Nat.lt_of_succ_lt_succ h)

/-- Dropping the replicate prefix plus one more element. -/
theorem drop_replicate_append {α : Type} (x y : α) (l : List α) :
    ∀ n, (List.replicate n x ++ y :: l).drop (n + 1) = l
  | 0 => rfl
  | n + 1 => drop_replicate_append x y l n

/-- C2 (amended): Unpack pops exactly one value (the struct) and pushes
max(nfields, 1) values: the value for field slot 0 (the deepest pushed one)
is ID exactly when the struct's handle has key, every other pushed value is
NonID, and the rest of the stack is untouched.  The loop over the remaining
fields runs over 1..nfields, so a struct with zero declared fields or native
field information still receives the single slot-0 push. -/
theorem unpack_transfer_amended (m : CompiledModule) (sd : StructDefinition)
    (h : StructHandle) (v : AbstractValue) (rest : List AbstractValue) (locals : Locals)
    (hh : m.struct_handles.get? sd.struct_handle = some h) :
    ∃ out : List AbstractValue,
      unpack m sd (v :: rest) locals = Res.ok (out, locals) ∧
      out.length = max (num_fields sd) 1 + rest.length ∧
      out.get? (max (num_fields sd) 1 - 1) =
        some (if h.abilities.has_key then AbstractValue.ID else AbstractValue.NonID) ∧
      (∀ i, i < max (num_fields sd) 1 - 1 → out.get? i = some AbstractValue.NonID) ∧
      out.drop (max (num_fields sd) 1) = rest := by
  refine ⟨List.replicate (num_fields sd - 1) AbstractValue.NonID ++
    (if h.abilities.has_key then AbstractValue.ID else AbstractValue.NonID) :: rest,
    ?_, ?_, ?_, ?_, ?_⟩
  · unfold unpack
    simp only [hh]
  · simp only [List.length_append, List.length_replicate, List.length_cons]
    omega
  · rw [show max (num_fields sd) 1 - 1 = num_fields sd - 1 by omega]
    exact get_replicate_append_boundary _ _ _ _
  · intro i hi
    rw [show max (num_fields sd) 1 - 1 = num_fields sd - 1 by omega] at hi
    exact get_replicate_append_lt _ _ _ i hi
  · rw [show max (num_fields sd) 1 = (num_fields sd - 1) + 1 by omega]
    exact drop_replicate_append _ _ _ _

/-- Witness for C2: unpacking a two-field key struct pushes NonID above the
slot-0 ID. -/
theorem unpack_transfer_amended_witness :
    ∃ out : List AbstractValue,
      unpack keyStructModule declaredKeyStructDef [AbstractValue.NonID] [] =
        Res.ok (out, []) ∧
      out.length = max (num_fields declaredKeyStructDef) 1 +
        List.length ([] : List AbstractValue) ∧
      out.get? (max (num_fields declaredKeyStructDef) 1 - 1) =
        some (if (⟨⟨true⟩⟩ : StructHandle).abilities.has_key then AbstractValue.ID
          else AbstractValue.NonID) ∧
      (∀ i, i < max (num_fields declaredKeyStructDef) 1 - 1 →
        out.get? i = some AbstractValue.NonID) ∧
      out.drop (max (num_fields declaredKeyStructDef) 1) = [] :=
  unpack_transfer_amended keyStructModule declaredKeyStructDef ⟨⟨true⟩⟩ AbstractValue.NonID
    [] [] rfl

/-- Counterexample for C2: a key struct with native field information has
nfields = 0, yet unpacking it pushes one value (an ID), not zero values as
the claim states. -/
theorem unpack_zero_fields_cex :
    unpack keyStructModule nativeKeyStructDef [AbstractValue.NonID] [] =
      Res.ok ([AbstractValue.ID], []) ∧
    num_fields nativeKeyStructDef = 0 :=
  ⟨rfl, rfl⟩

/-- C10: mid-block stack underflow makes the transfer panic (unwrap on an
empty operand stack) instead of returning any error status: Pop on an empty
stack, a binary operator on a stack with at most one value, and a call whose
parameter count exceeds the stack height (with only NonID values present)
all panic. -/
theorem stack_underflow_panics (m : CompiledModule) (fv : FunctionView) (locals : Locals) :
    (execute_inner m fv [] locals Bytecode.Pop = Res.panicked) ∧
    (∀ stack : List AbstractValue, stack.length ≤ 1 →
      execute_inner m fv stack locals Bytecode.Add = Res.panicked) ∧
    (∀ (idx : Nat) (fh : FunctionHandle) (psig : Signature) (stack : List AbstractValue),
      m.function_handles.get? idx = some fh →
      m.signatures.get? fh.parameters = some psig →
      stack.length < psig.tokens.length →
      stackNonID stack →
      execute_inner m fv stack locals (Bytecode.Call idx) = Res.panicked) := by
  refine ⟨rfl, ?_, ?_⟩
  · intro stack hlen
    match stack with
    | [] => rfl
    | [v] => rfl
    | v :: w :: rest =>
      exact absurd hlen (by simp only [List.length_cons]; omega)
  · intro idx fh psig stack hidx hp hlen hnon
    have hcall : call m fh stack locals = Res.panicked := by
      rcases is_call_shape m fh with hs | ⟨b, hs⟩
      · unfold call
        simp only [hs]
      · unfold call
        simp only [hs, hp,
          popCheckLoop_underflow "ID leaked through function call." b
            psig.tokens.length stack hnon hlen]
    simp only [execute_inner, hidx, hcall]

/-- Witness for C10: the three underflow shapes at concrete inputs. -/
theorem stack_underflow_panics_witness :
    execute_inner emptyModule fvNoReturns [] [] Bytecode.Pop = Res.panicked ∧
    execute_inner emptyModule fvNoReturns [AbstractValue.NonID] [] Bytecode.Add =
      Res.panicked ∧
    execute_inner frameworkDeleteModule fvNoReturns [] [] (Bytecode.Call 0) =
      Res.panicked := by
  refine ⟨(stack_underflow_panics emptyModule fvNoReturns []).1,
    (stack_underflow_panics emptyModule fvNoReturns []).2.1 [AbstractValue.NonID] (by decide),
    (stack_underflow_panics frameworkDeleteModule fvNoReturns []).2.2 0 ⟨0, 1, 0, 1⟩ ⟨[()]⟩
      [] rfl rfl (by decide) ?_⟩
  intro w hw
  exact absurd hw (List.not_mem_nil w)

/-- Membership after a sorted-map insert comes from the new pair or the old
map. -/
theorem mem_mapInsert {α : Type} (k : Nat) (v : α) :
    ∀ (l : List (Nat × α)) (p : Nat × α), p ∈ mapInsert l k v → p = (k, v) ∨ p ∈ l := by
  intro l
  induction l with
  | nil =>
    intro p hp
    exact Or.inl (List.mem_singleton.mp hp)
  | cons hd tl ih =>
    intro p hp
    obtain ⟨k0, w⟩ := hd
    rw [mapInsert] at hp
    split at hp
    · rcases List.mem_cons.mp hp with h | h
      · exact Or.inl h
      · exact Or.inr h
    · split at hp
      · rcases List.mem_cons.mp hp with h | h
        · exact Or.inl h
        · exact Or.inr (List.mem_cons_of_mem _ h)
      · rcases List.mem_cons.mp hp with h | h
        · refine Or.inr ?_
          rw [h]
          exact List.mem_cons_self _ _
        · rcases ih p h with h2 | h2
          · exact Or.inl h2
          · exact Or.inr (List.mem_cons_of_mem _ h2)

/-- Membership after a sorted-map remove comes from the old map. -/
theorem mem_mapRemove {α : Type} (k : Nat) :
    ∀ (l : List (Nat × α)) (p : Nat × α), p ∈ mapRemove l k → p ∈ l := by
  intro l
  induction l with
  | nil => intro p hp; exact absurd hp (List.not_mem_nil p)
  | cons hd tl ih =>
    intro p hp
    obtain ⟨k0, w⟩ := hd
    rw [mapRemove] at hp
    split at hp
    · exact List.mem_cons_of_mem _ hp
    · rcases List.mem_cons.mp hp with h | h
      · rw [h]
        exact List.mem_cons_self _ _
      · exact List.mem_cons_of_mem _ (ih p h)

/-- A successful sorted-map lookup is a member. -/
theorem mapGet_mem {α : Type} (k : Nat) :
    ∀ (l : List (Nat × α)) (v : α), mapGet l k = some v → (k, v) ∈ l := by
  intro l
  induction l with
  | nil => intro v hv; exact Option.noConfusion hv
  | cons hd tl ih =>
    intro v hv
    obtain ⟨k0, w⟩ := hd
    rw [mapGet] at hv
    split at hv
    · rename_i hk
      have hw : w = v := Option.some.inj hv
      rw [hk, hw]
      exact List.mem_cons_self _ _
    · exact List.mem_cons_of_mem _ (ih v hv)

/-- Inserting NonID keeps the locals map all-NonID. -/
theorem localsNonID_insert (l : Locals) (k : Nat) (hl : localsNonID l) :
    localsNonID (mapInsert l k AbstractValue.NonID) := by
  intro p hp
  rcases mem_mapInsert k AbstractValue.NonID l p hp with h | h
  · rw [h]
  · exact hl p h

/-- Removing keeps the locals map all-NonID. -/
theorem localsNonID_remove (l : Locals) (k : Nat) (hl : localsNonID l) :
    localsNonID (mapRemove l k) :=
  fun p hp => hl p (mem_mapRemove k l p hp)

/-- Looking up in an all-NonID locals map yields NonID. -/
theorem localsNonID_get (l : Locals) (k : Nat) (v : AbstractValue)
    (hl : localsNonID l) (h : mapGet l k = some v) : v = AbstractValue.NonID :=
  hl (k, v) (mapGet_mem k l v h)

/-- The empty stack is all-NonID. -/
theorem stackNonID_nil : stackNonID [] :=
  fun v hv => absurd hv (List.not_mem_nil v)

/-- Pushing NonID keeps the stack all-NonID. -/
theorem stackNonID_cons (v : AbstractValue) (s : List AbstractValue)
    (hv : v = AbstractValue.NonID) (hs : stackNonID s) : stackNonID (v :: s) := by
  intro w hw
  rcases List.mem_cons.mp hw with h | h
  · rw [h, hv]
  · exact hs w h

/-- Popping keeps the stack all-NonID. -/
theorem stackNonID_tail (v : AbstractValue) (s : List AbstractValue)
    (hs : stackNonID (v :: s)) : stackNonID s :=
  fun w hw => hs w (List.mem_cons_of_mem v hw)

/-- The top of an all-NonID stack is NonID. -/
theorem stackNonID_head (v : AbstractValue) (s : List AbstractValue)
    (hs : stackNonID (v :: s)) : v = AbstractValue.NonID :=
  hs v (List.mem_cons_self v s)

/-- Concatenation of all-NonID stacks is all-NonID. -/
theorem stackNonID_append (s t : List AbstractValue)
    (hs : stackNonID s) (ht : stackNonID t) : stackNonID (s ++ t) := by
  intro w hw
  rcases List.mem_append.mp hw with h | h
  · exact hs w h
  · exact ht w h

/-- A replicate of NonID is all-NonID. -/
theorem stackNonID_replicate (n : Nat) :
    stackNonID (List.replicate n AbstractValue.NonID) :=
  fun w hw => (List.mem_replicate.mp hw).2

/-- Dropping keeps an all-NonID stack all-NonID. -/
theorem stackNonID_drop (n : Nat) (s : List AbstractValue) (hs : stackNonID s) :
    stackNonID (s.drop n) :=
  fun w hw => hs w (List.drop_subset n s hw)

/-- A panic satisfies the step preservation conclusion. -/
theorem stepPreserves_panicked : stepPreserves Res.panicked := Or.inl rfl

/-- A success with all-NonID parts satisfies the step preservation
conclusion. -/
theorem stepPreserves_ok (s1 : List AbstractValue) (l1 : Locals)
    (h1 : stackNonID s1) (h2 : localsNonID l1) : stepPreserves (Res.ok (s1, l1)) :=
  Or.inr ⟨s1, l1, rfl, h1, h2⟩

/-- Preservation for call: from an all-NonID stack, a call panics or succeeds
with an all-NonID stack; it never reports a leak. -/
theorem call_preserves (m : CompiledModule) (fh : FunctionHandle)
    (stack : List AbstractValue) (locals : Locals)
    (hs : stackNonID stack) (hl : localsNonID locals) :
    stepPreserves (call m fh stack locals) := by
  rcases is_call_shape m fh with hsafe | ⟨gb, hsafe⟩
  · refine Or.inl ?_
    unfold call
    simp only [hsafe]
  · rcases Option.eq_none_or_eq_some (m.signatures.get? fh.parameters) with hp | ⟨psig, hp⟩
    · refine Or.inl ?_
      unfold call
      simp only [hsafe, hp]
    · rcases le_or_lt psig.tokens.length stack.length with hlen | hlen
      · have hpop : popCheckLoop "ID leaked through function call." gb
            psig.tokens.length stack = Res.ok (stack.drop psig.tokens.length) := by
          cases gb
          · exact popCheckLoop_nonid "ID leaked through function call." false
              psig.tokens.length stack hs hlen
          · exact popCheckLoop_exempt "ID leaked through function call."
              psig.tokens.length stack hlen
        rcases Option.eq_none_or_eq_some (m.signatures.get? fh.return_) with hr | ⟨rsig, hr⟩
        · refine Or.inl ?_
          unfold call
          simp only [hsafe, hp, hpop, hr]
        · have h1 : call m fh stack locals =
              Res.ok (List.replicate rsig.tokens.length AbstractValue.NonID ++
                stack.drop psig.tokens.length, locals) := by
            unfold call
            simp only [hsafe, hp, hpop, hr]
          rw [h1]
          exact stepPreserves_ok _ _
            (stackNonID_append _ _ (stackNonID_replicate rsig.tokens.length)
              (stackNonID_drop psig.tokens.length stack hs)) hl
      · refine Or.inl ?_
        unfold call
        simp only [hsafe, hp,
          popCheckLoop_underflow "ID leaked through function call." gb
            psig.tokens.length stack hs hlen]

/-- Preservation for pack: from an all-NonID stack, pack panics or succeeds
with an all-NonID stack; it never reports a leak. -/
theorem pack_preserves (sd : StructDefinition) (stack : List AbstractValue)
    (locals : Locals) (hs : stackNonID stack) (hl : localsNonID locals) :
    stepPreserves (pack sd stack locals) := by
  rcases le_or_lt (num_fields sd) stack.length with hlen | hlen
  · have h1 : pack sd stack locals =
        Res.ok (AbstractValue.NonID :: stack.drop (num_fields sd), locals) := by
      unfold pack
      simp only [popCheckLoop_nonid "ID is leaked into a struct." false
        (num_fields sd) stack hs hlen]
    rw [h1]
    exact stepPreserves_ok _ _
      (stackNonID_cons AbstractValue.NonID _ rfl (stackNonID_drop (num_fields sd) stack hs)) hl
  · refine Or.inl ?_
    unfold pack
    simp only [popCheckLoop_underflow "ID is leaked into a struct." false
      (num_fields sd) stack hs hlen]

/-- Preservation for unpack of a non-key struct: it panics or succeeds with an
all-NonID stack; it never produces an ID. -/
theorem unpack_preserves (m : CompiledModule) (sd : StructDefinition)
    (stack : List AbstractValue) (locals : Locals)
    (hs : stackNonID stack) (hl : localsNonID locals)
    (hkey : ∀ h, m.struct_handles.get? sd.struct_handle = some h →
      h.abilities.has_key = false) :
    stepPreserves (unpack m sd stack locals) := by
  cases stack with
  | nil => exact stepPreserves_panicked
  | cons v rest =>
    rcases Option.eq_none_or_eq_some (m.struct_handles.get? sd.struct_handle) with
      hh | ⟨h, hh⟩
    · refine Or.inl ?_
      simp only [unpack, hh]
    · have hk := hkey h hh
      have h1 : unpack m sd (v :: rest) locals =
          Res.ok (List.replicate (num_fields sd - 1) AbstractValue.NonID ++
            (if h.abilities.has_key then AbstractValue.ID else AbstractValue.NonID) :: rest,
            locals) := by
        simp only [unpack, hh]
      rw [h1, hk]
      exact stepPreserves_ok _ _
        (stackNonID_append _ _ (stackNonID_replicate (num_fields sd - 1))
          (stackNonID_cons _ rest rfl (stackNonID_tail v rest hs))) hl

/-- Preservation for the transfer: from an all-NonID stack and locals map, a
bytecode that does not unpack a key struct either panics or succeeds with an
all-NonID stack and locals map; no error of any kind is returned. -/
theorem execute_inner_preserves (m : CompiledModule) (fv : FunctionView)
    (stack : List AbstractValue) (locals : Locals) (b : Bytecode)
    (hs : stackNonID stack) (hl : localsNonID locals)
    (hb : bytecodeNoKeyUnpack m b = true) :
    stepPreserves (execute_inner m fv stack locals b) := by
  cases b with
  | Pop =>
    cases stack with
    | nil => exact stepPreserves_panicked
    | cons v rest => exact Or.inr ⟨rest, locals, rfl, stackNonID_tail v rest hs, hl⟩
  | BrTrue o =>
    cases stack with
    | nil => exact stepPreserves_panicked
    | cons v rest => exact Or.inr ⟨rest, locals, rfl, stackNonID_tail v rest hs, hl⟩
  | BrFalse o =>
    cases stack with
    | nil => exact stepPreserves_panicked
    | cons v rest => exact Or.inr ⟨rest, locals, rfl, stackNonID_tail v rest hs, hl⟩
  | Abort =>
    cases stack with
    | nil => exact stepPreserves_panicked
    | cons v rest => exact Or.inr ⟨rest, locals, rfl, stackNonID_tail v rest hs, hl⟩
  | FreezeRef =>
    cases stack with
    | nil => exact stepPreserves_panicked
    | cons v rest =>
      exact Or.inr ⟨AbstractValue.NonID :: rest, locals, rfl,
        stackNonID_cons AbstractValue.NonID rest rfl (stackNonID_tail v rest hs), hl⟩
  | ReadRef =>
    cases stack with
    | nil => exact stepPreserves_panicked
    | cons v rest =>
      exact Or.inr ⟨AbstractValue.NonID :: rest, locals, rfl,
        stackNonID_cons AbstractValue.NonID rest rfl (stackNonID_tail v rest hs), hl⟩
  | CastU8 =>
    cases stack with
    | nil => exact stepPreserves_panicked
    | cons v rest =>
      exact Or.inr ⟨AbstractValue.NonID :: rest, locals, rfl,
        stackNonID_cons AbstractValue.NonID rest rfl (stackNonID_tail v rest hs), hl⟩
  | CastU16 =>
    cases stack with
    | nil => exact stepPreserves_panicked
    | cons v rest =>
      exact Or.inr ⟨AbstractValue.NonID :: rest, locals, rfl,
        stackNonID_cons AbstractValue.NonID rest rfl (stackNonID_tail v rest hs), hl⟩
  | CastU32 =>
    cases stack with
    | nil => exact stepPreserves_panicked
    | cons v rest =>
      exact Or.inr ⟨AbstractValue.NonID :: rest, locals, rfl,
        stackNonID_cons AbstractValue.NonID rest rfl (stackNonID_tail v rest hs), hl⟩
  | CastU64 =>
    cases stack with
    | nil => exact stepPreserves_panicked
    | cons v rest =>
      exact Or.inr ⟨AbstractValue.NonID :: rest, locals, rfl,
        stackNonID_cons AbstractValue.NonID rest rfl (stackNonID_tail v rest hs), hl⟩
  | CastU128 =>
    cases stack with
    | nil => exact stepPreserves_panicked
    | cons v rest =>
      exact Or.inr ⟨AbstractValue.NonID :: rest, locals, rfl,
        stackNonID_cons AbstractValue.NonID rest rfl (stackNonID_tail v rest hs), hl⟩
  | CastU256 =>
    cases stack with
    | nil => exact stepPreserves_panicked
    | cons v rest =>
      exact Or.inr ⟨AbstractValue.NonID :: rest, locals, rfl,
        stackNonID_cons AbstractValue.NonID rest rfl (stackNonID_tail v rest hs), hl⟩
  | Not =>
    cases stack with
    | nil => exact stepPreserves_panicked
    | cons v rest =>
      exact Or.inr ⟨AbstractValue.NonID :: rest, locals, rfl,
        stackNonID_cons AbstractValue.NonID rest rfl (stackNonID_tail v rest hs), hl⟩
  | VecLen sg =>
    cases stack with
    | nil => exact stepPreserves_panicked
    | cons v rest =>
      exact Or.inr ⟨AbstractValue.NonID :: rest, locals, rfl,
        stackNonID_cons AbstractValue.NonID rest rfl (stackNonID_tail v rest hs), hl⟩
  | VecPopBack sg =>
    cases stack with
    | nil => exact stepPreserves_panicked
    | cons v rest =>
      exact Or.inr ⟨AbstractValue.NonID :: rest, locals, rfl,
        stackNonID_cons AbstractValue.NonID rest rfl (stackNonID_tail v rest hs), hl⟩
  | MutBorrowField ix =>
    cases stack with
    | nil => exact stepPreserves_panicked
    | cons v rest =>
      exact Or.inr ⟨AbstractValue.NonID :: rest, locals, rfl,
        stackNonID_cons AbstractValue.NonID rest rfl (stackNonID_tail v rest hs), hl⟩
  | MutBorrowFieldGeneric ix =>
    cases stack with
    | nil => exact stepPreserves_panicked
    | cons v rest =>
      exact Or.inr ⟨AbstractValue.NonID :: rest, locals, rfl,
        stackNonID_cons AbstractValue.NonID rest rfl (stackNonID_tail v rest hs), hl⟩
  | ImmBorrowField ix =>
    cases stack with
    | nil => exact stepPreserves_panicked
    | cons v rest =>
      exact Or.inr ⟨AbstractValue.NonID :: rest, locals, rfl,
        stackNonID_cons AbstractValue.NonID rest rfl (stackNonID_tail v rest hs), hl⟩
  | ImmBorrowFieldGeneric ix =>
    cases stack with
    | nil => exact stepPreserves_panicked
    | cons v rest =>
      exact Or.inr ⟨AbstractValue.NonID :: rest, locals, rfl,
        stackNonID_cons AbstractValue.NonID rest rfl (stackNonID_tail v rest hs), hl⟩
  | Eq =>
    cases stack with
    | nil => exact stepPreserves_panicked
    | cons v rest =>
      cases rest with
      | nil => exact stepPreserves_panicked
      | cons w rest2 =>
        exact Or.inr ⟨AbstractValue.NonID :: rest2, locals, rfl,
          stackNonID_cons AbstractValue.NonID rest2 rfl
            (stackNonID_tail w rest2 (stackNonID_tail v (w :: rest2) hs)), hl⟩
  | Neq =>
    cases stack with
    | nil => exact stepPreserves_panicked
    | cons v rest =>
      cases rest with
      | nil => exact stepPreserves_panicked
      | cons w rest2 =>
        exact Or.inr ⟨AbstractValue.NonID :: rest2, locals, rfl,
          stackNonID_cons AbstractValue.NonID rest2 rfl
            (stackNonID_tail w rest2 (stackNonID_tail v (w :: rest2) hs)), hl⟩
  | Add =>
    cases stack with
    | nil => exact stepPreserves_panicked
    | cons v rest =>
      cases rest with
      | nil => exact stepPreserves_panicked
      | cons w rest2 =>
        exact Or.inr ⟨AbstractValue.NonID :: rest2, locals, rfl,
          stackNonID_cons AbstractValue.NonID rest2 rfl
            (stackNonID_tail w rest2 (stackNonID_tail v (w :: rest2) hs)), hl⟩
  | Sub =>
    cases stack with
    | nil => exact stepPreserves_panicked
    | cons v rest =>
      cases rest with
      | nil => exact stepPreserves_panicked
      | cons w rest2 =>
        exact Or.inr ⟨AbstractValue.NonID :: rest2, locals, rfl,
          stackNonID_cons AbstractValue.NonID rest2 rfl
            (stackNonID_tail w rest2 (stackNonID_tail v (w :: rest2) hs)), hl⟩
  | Mul =>
    cases stack with
    | nil => exact stepPreserves_panicked
    | cons v rest =>
      cases rest with
      | nil => exact stepPreserves_panicked
      | cons w rest2 =>
        exact Or.inr ⟨AbstractValue.NonID :: rest2, locals, rfl,
          stackNonID_cons AbstractValue.NonID rest2 rfl
            (stackNonID_tail w rest2 (stackNonID_tail v (w :: rest2) hs)), hl⟩
  | Mod =>
    cases stack with
    | nil => exact stepPreserves_panicked
    | cons v rest =>
      cases rest with
      | nil => exact stepPreserves_panicked
      | cons w rest2 =>
        exact Or.inr ⟨AbstractValue.NonID :: rest2, locals, rfl,
          stackNonID_cons AbstractValue.NonID rest2 rfl
            (stackNonID_tail w rest2 (stackNonID_tail v (w :: rest2) hs)), hl⟩
  | Div =>
    cases stack with
    | nil => exact stepPreserves_panicked
    | cons v rest =>
      cases rest with
      | nil => exact stepPreserves_panicked
      | cons w rest2 =>
        exact Or.inr ⟨AbstractValue.NonID :: rest2, locals, rfl,
          stackNonID_cons AbstractValue.NonID rest2 rfl
            (stackNonID_tail w rest2 (stackNonID_tail v (w :: rest2) hs)), hl⟩
  | BitOr =>
    cases stack with
    | nil => exact stepPreserves_panicked
    | cons v rest =>
      cases rest with
      | nil => exact stepPreserves_panicked
      | cons w rest2 =>
        exact Or.inr ⟨AbstractValue.NonID :: rest2, locals, rfl,
          stackNonID_cons AbstractValue.NonID rest2 rfl
            (stackNonID_tail w rest2 (stackNonID_tail v (w :: rest2) hs)), hl⟩
  | BitAnd =>
    cases stack with
    | nil => exact stepPreserves_panicked
    | cons v rest =>
      cases rest with
      | nil => exact stepPreserves_panicked
      | cons w rest2 =>
        exact Or.inr ⟨AbstractValue.NonID :: rest2, locals, rfl,
          stackNonID_cons AbstractValue.NonID rest2 rfl
            (stackNonID_tail w rest2 (stackNonID_tail v (w :: rest2) hs)), hl⟩
  | Xor =>
    cases stack with
    | nil => exact stepPreserves_panicked
    | cons v rest =>
      cases rest with
      | nil => exact stepPreserves_panicked
      | cons w rest2 =>
        exact Or.inr ⟨AbstractValue.NonID :: rest2, locals, rfl,
          stackNonID_cons AbstractValue.NonID rest2 rfl
            (stackNonID_tail w rest2 (stackNonID_tail v (w :: rest2) hs)), hl⟩
  | Shl =>
    cases stack with
    | nil => exact stepPreserves_panicked
    | cons v rest =>
      cases rest with
      | nil => exact stepPreserves_panicked
      | cons w rest2 =>
        exact Or.inr ⟨AbstractValue.NonID :: rest2, locals, rfl,
          stackNonID_cons AbstractValue.NonID rest2 rfl
            (stackNonID_tail w rest2 (stackNonID_tail v (w :: rest2) hs)), hl⟩
  | Shr =>
    cases stack with
    | nil => exact stepPreserves_panicked
    | cons v rest =>
      cases rest with
      | nil => exact stepPreserves_panicked
      | cons w rest2 =>
        exact Or.inr ⟨AbstractValue.NonID :: rest2, locals, rfl,
          stackNonID_cons AbstractValue.NonID rest2 rfl
            (stackNonID_tail w rest2 (stackNonID_tail v (w :: rest2) hs)), hl⟩
  | Or =>
    cases stack with
    | nil => exact stepPreserves_panicked
    | cons v rest =>
      cases rest with
      | nil => exact stepPreserves_panicked
      | cons w rest2 =>
        exact Or.inr ⟨AbstractValue.NonID :: rest2, locals, rfl,
          stackNonID_cons AbstractValue.NonID rest2 rfl
            (stackNonID_tail w rest2 (stackNonID_tail v (w :: rest2) hs)), hl⟩
  | And =>
    cases stack with
    | nil => exact stepPreserves_panicked
    | cons v rest =>
      cases rest with
      | nil => exact stepPreserves_panicked
      | cons w rest2 =>
        exact Or.inr ⟨AbstractValue.NonID :: rest2, locals, rfl,
          stackNonID_cons AbstractValue.NonID rest2 rfl
            (stackNonID_tail w rest2 (stackNonID_tail v (w :: rest2) hs)), hl⟩
  | Lt =>
    cases stack with
    | nil => exact stepPreserves_panicked
    | cons v rest =>
      cases rest with
      | nil => exact stepPreserves_panicked
      | cons w rest2 =>
        exact Or.inr ⟨AbstractValue.NonID :: rest2, locals, rfl,
          stackNonID_cons AbstractValue.NonID rest2 rfl
            (stackNonID_tail w rest2 (stackNonID_tail v (w :: rest2) hs)), hl⟩
  | Gt =>
    cases stack with
    | nil => exact stepPreserves_panicked
    | cons v rest =>
      cases rest with
      | nil => exact stepPreserves_panicked
      | cons w rest2 =>
        exact Or.inr ⟨AbstractValue.NonID :: rest2, locals, rfl,
          stackNonID_cons AbstractValue.NonID rest2 rfl
            (stackNonID_tail w rest2 (stackNonID_tail v (w :: rest2) hs)), hl⟩
  | Le =>
    cases stack with
    | nil => exact stepPreserves_panicked
    | cons v rest =>
      cases rest with
      | nil => exact stepPreserves_panicked
      | cons w rest2 =>
        exact Or.inr ⟨AbstractValue.NonID :: rest2, locals, rfl,
          stackNonID_cons AbstractValue.NonID rest2 rfl
            (stackNonID_tail w rest2 (stackNonID_tail v (w :: rest2) hs)), hl⟩
  | Ge =>
    cases stack with
    | nil => exact stepPreserves_panicked
    | cons v rest =>
      cases rest with
      | nil => exact stepPreserves_panicked
      | cons w rest2 =>
        exact Or.inr ⟨AbstractValue.NonID :: rest2, locals, rfl,
          stackNonID_cons AbstractValue.NonID rest2 rfl
            (stackNonID_tail w rest2 (stackNonID_tail v (w :: rest2) hs)), hl⟩
  | VecImmBorrow sg =>
    cases stack with
    | nil => exact stepPreserves_panicked
    | cons v rest =>
      cases rest with
      | nil => exact stepPreserves_panicked
      | cons w rest2 =>
        exact Or.inr ⟨AbstractValue.NonID :: rest2, locals, rfl,
          stackNonID_cons AbstractValue.NonID rest2 rfl
            (stackNonID_tail w rest2 (stackNonID_tail v (w :: rest2) hs)), hl⟩
  | VecMutBorrow sg =>
    cases stack with
    | nil => exact stepPreserves_panicked
    | cons v rest =>
      cases rest with
      | nil => exact stepPreserves_panicked
      | cons w rest2 =>
        exact Or.inr ⟨AbstractValue.NonID :: rest2, locals, rfl,
          stackNonID_cons AbstractValue.NonID rest2 rfl
            (stackNonID_tail w rest2 (stackNonID_tail v (w :: rest2) hs)), hl⟩
  | LdTrue =>
    exact Or.inr ⟨AbstractValue.NonID :: stack, locals, rfl,
      stackNonID_cons AbstractValue.NonID stack rfl hs, hl⟩
  | LdFalse =>
    exact Or.inr ⟨AbstractValue.NonID :: stack, locals, rfl,
      stackNonID_cons AbstractValue.NonID stack rfl hs, hl⟩
  | LdU8 x =>
    exact Or.inr ⟨AbstractValue.NonID :: stack, locals, rfl,
      stackNonID_cons AbstractValue.NonID stack rfl hs, hl⟩
  | LdU16 x =>
    exact Or.inr ⟨AbstractValue.NonID :: stack, locals, rfl,
      stackNonID_cons AbstractValue.NonID stack rfl hs, hl⟩
  | LdU32 x =>
    exact Or.inr ⟨AbstractValue.NonID :: stack, locals, rfl,
      stackNonID_cons AbstractValue.NonID stack rfl hs, hl⟩
  | LdU64 x =>
    exact Or.inr ⟨AbstractValue.NonID :: stack, locals, rfl,
      stackNonID_cons AbstractValue.NonID stack rfl hs, hl⟩
  | LdU128 x =>
    exact Or.inr ⟨AbstractValue.NonID :: stack, locals, rfl,
      stackNonID_cons AbstractValue.NonID stack rfl hs, hl⟩
  | LdU256 x =>
    exact Or.inr ⟨AbstractValue.NonID :: stack, locals, rfl,
      stackNonID_cons AbstractValue.NonID stack rfl hs, hl⟩
  | LdConst ix =>
    exact Or.inr ⟨AbstractValue.NonID :: stack, locals, rfl,
      stackNonID_cons AbstractValue.NonID stack rfl hs, hl⟩
  | MutBorrowLoc ix =>
    exact Or.inr ⟨AbstractValue.NonID :: stack, locals, rfl,
      stackNonID_cons AbstractValue.NonID stack rfl hs, hl⟩
  | ImmBorrowLoc ix =>
    exact Or.inr ⟨AbstractValue.NonID :: stack, locals, rfl,
      stackNonID_cons AbstractValue.NonID stack rfl hs, hl⟩
  | Branch o => exact Or.inr ⟨stack, locals, rfl, hs, hl⟩
  | Nop => exact Or.inr ⟨stack, locals, rfl, hs, hl⟩
  | MoveFrom ix => exact stepPreserves_panicked
  | MoveFromGeneric ix => exact stepPreserves_panicked
  | MoveTo ix => exact stepPreserves_panicked
  | MoveToGeneric ix => exact stepPreserves_panicked
  | ImmBorrowGlobal ix => exact stepPreserves_panicked
  | MutBorrowGlobal ix => exact stepPreserves_panicked
  | ImmBorrowGlobalGeneric ix => exact stepPreserves_panicked
  | MutBorrowGlobalGeneric ix => exact stepPreserves_panicked
  | Exists ix => exact stepPreserves_panicked
  | ExistsGeneric ix => exact stepPreserves_panicked
  | CopyLoc ix =>
    rcases Option.eq_none_or_eq_some (mapGet locals ix) with hm | ⟨v, hm⟩
    · refine Or.inl ?_
      simp only [execute_inner, hm]
    · refine Or.inr ⟨v :: stack, locals, ?_,
        stackNonID_cons v stack (localsNonID_get locals ix v hl hm) hs, hl⟩
      simp only [execute_inner, hm]
  | MoveLoc ix =>
    rcases Option.eq_none_or_eq_some (mapGet locals ix) with hm | ⟨v, hm⟩
    · refine Or.inl ?_
      simp only [execute_inner, hm]
    · refine Or.inr ⟨v :: stack, mapRemove locals ix, ?_,
        stackNonID_cons v stack (localsNonID_get locals ix v hl hm) hs,
        localsNonID_remove locals ix hl⟩
      simp only [execute_inner, hm]
  | StLoc ix =>
    cases stack with
    | nil => exact stepPreserves_panicked
    | cons v rest =>
      refine Or.inr ⟨rest, mapInsert locals ix v, rfl, stackNonID_tail v rest hs, ?_⟩
      rw [stackNonID_head v rest hs]
      exact localsNonID_insert locals ix hl
  | Call ix =>
    rcases Option.eq_none_or_eq_some (m.function_handles.get? ix) with hf | ⟨fh, hf⟩
    · refine Or.inl ?_
      simp only [execute_inner, hf]
    · have h1 : execute_inner m fv stack locals (Bytecode.Call ix) =
          call m fh stack locals := by
        simp only [execute_inner, hf]
      rw [h1]
      exact call_preserves m fh stack locals hs hl
  | CallGeneric ix =>
    rcases Option.eq_none_or_eq_some (m.function_instantiations.get? ix) with hfi | ⟨fi, hfi⟩
    · refine Or.inl ?_
      simp only [execute_inner, hfi]
    · rcases Option.eq_none_or_eq_some (m.function_handles.get? fi.handle) with hf | ⟨fh, hf⟩
      · refine Or.inl ?_
        simp only [execute_inner, hfi, hf]
      · have h1 : execute_inner m fv stack locals (Bytecode.CallGeneric ix) =
            call m fh stack locals := by
          simp only [execute_inner, hfi, hf]
        rw [h1]
        exact call_preserves m fh stack locals hs hl
  | Ret =>
    rcases le_or_lt fv.return_.tokens.length stack.length with hlen | hlen
    · have h1 : execute_inner m fv stack locals Bytecode.Ret =
          Res.ok (stack.drop fv.return_.tokens.length, locals) := by
        show mapStack (popCheckLoop "ID leaked through function return." false
          fv.return_.tokens.length stack) locals = _
        rw [popCheckLoop_nonid "ID leaked through function return." false
          fv.return_.tokens.length stack hs hlen]
        rfl
      exact Or.inr ⟨_, _, h1, stackNonID_drop fv.return_.tokens.length stack hs, hl⟩
    · refine Or.inl ?_
      show mapStack (popCheckLoop "ID leaked through function return." false
        fv.return_.tokens.length stack) locals = _
      rw [popCheckLoop_underflow "ID leaked through function return." false
        fv.return_.tokens.length stack hs hlen]
      rfl
  | Pack ix =>
    rcases Option.eq_none_or_eq_some (m.struct_defs.get? ix) with hsd | ⟨sd, hsd⟩
    · refine Or.inl ?_
      simp only [execute_inner, hsd]
    · have h1 : execute_inner m fv stack locals (Bytecode.Pack ix) = pack sd stack locals := by
        simp only [execute_inner, hsd]
      rw [h1]
      exact pack_preserves sd stack locals hs hl
  | PackGeneric ix =>
    rcases Option.eq_none_or_eq_some (m.struct_instantiations.get? ix) with hsi | ⟨si, hsi⟩
    · refine Or.inl ?_
      simp only [execute_inner, hsi]
    · rcases Option.eq_none_or_eq_some (m.struct_defs.get? si.def_) with hsd | ⟨sd, hsd⟩
      · refine Or.inl ?_
        simp only [execute_inner, hsi, hsd]
      · have h1 : execute_inner m fv stack locals (Bytecode.PackGeneric ix) =
            pack sd stack locals := by
          simp only [execute_inner, hsi, hsd]
        rw [h1]
        exact pack_preserves sd stack locals hs hl
  | Unpack ix =>
    rcases Option.eq_none_or_eq_some (m.struct_defs.get? ix) with hsd | ⟨sd, hsd⟩
    · refine Or.inl ?_
      simp only [execute_inner, hsd]
    · have h1 : execute_inner m fv stack locals (Bytecode.Unpack ix) =
          unpack m sd stack locals := by
        simp only [execute_inner, hsd]
      rw [h1]
      refine unpack_preserves m sd stack locals hs hl ?_
      intro hnd hh
      have h2 := hb
      simp only [bytecodeNoKeyUnpack, hsd, hh] at h2
      simpa using h2
  | UnpackGeneric ix =>
    rcases Option.eq_none_or_eq_some (m.struct_instantiations.get? ix) with hsi | ⟨si, hsi⟩
    · refine Or.inl ?_
      simp only [execute_inner, hsi]
    · rcases Option.eq_none_or_eq_some (m.struct_defs.get? si.def_) with hsd | ⟨sd, hsd⟩
      · refine Or.inl ?_
        simp only [execute_inner, hsi, hsd]
      · have h1 : execute_inner m fv stack locals (Bytecode.UnpackGeneric ix) =
            unpack m sd stack locals := by
          simp only [execute_inner, hsi, hsd]
        rw [h1]
        refine unpack_preserves m sd stack locals hs hl ?_
        intro hnd hh
        have h2 := hb
        simp only [bytecodeNoKeyUnpack, hsi, hsd, hh] at h2
        simpa using h2
  | WriteRef =>
    cases stack with
    | nil => exact stepPreserves_panicked
    | cons r rest =>
      cases rest with
      | nil => exact stepPreserves_panicked
      | cons v rest2 =>
        have hv := stackNonID_head v rest2 (stackNonID_tail r (v :: rest2) hs)
        refine Or.inr ⟨rest2, locals, ?_,
          stackNonID_tail v rest2 (stackNonID_tail r (v :: rest2) hs), hl⟩
        simp [execute_inner, hv]
  | VecPack sg num =>
    rcases le_or_lt num stack.length with hlen | hlen
    · have h1 : execute_inner m fv stack locals (Bytecode.VecPack sg num) =
          Res.ok (AbstractValue.NonID :: stack.drop num, locals) := by
        simp only [execute_inner,
          popCheckLoop_nonid "ID is leaked into a vector" false num stack hs hlen]
      exact Or.inr ⟨_, _, h1,
        stackNonID_cons AbstractValue.NonID (stack.drop num) rfl
          (stackNonID_drop num stack hs), hl⟩
    · refine Or.inl ?_
      simp only [execute_inner,
        popCheckLoop_underflow "ID is leaked into a vector" false num stack hs hlen]
  | VecPushBack sg =>
    cases stack with
    | nil => exact stepPreserves_panicked
    | cons v rest =>
      have hv := stackNonID_head v rest hs
      cases rest with
      | nil =>
        refine Or.inl ?_
        simp [execute_inner, hv]
      | cons r rest2 =>
        refine Or.inr ⟨rest2, locals, ?_,
          stackNonID_tail r rest2 (stackNonID_tail v (r :: rest2) hs), hl⟩
        simp [execute_inner, hv]
  | VecUnpack sg num =>
    cases stack with
    | nil => exact stepPreserves_panicked
    | cons v rest =>
      exact Or.inr ⟨List.replicate num AbstractValue.NonID ++ rest, locals, rfl,
        stackNonID_append (List.replicate num AbstractValue.NonID) rest
          (stackNonID_replicate num) (stackNonID_tail v rest hs), hl⟩
  | VecSwap sg =>
    cases stack with
    | nil => exact stepPreserves_panicked
    | cons a rest =>
      cases rest with
      | nil => exact stepPreserves_panicked
      | cons c rest2 =>
        cases rest2 with
        | nil => exact stepPreserves_panicked
        | cons d rest3 =>
          exact Or.inr ⟨rest3, locals, rfl,
            stackNonID_tail d rest3 (stackNonID_tail c (d :: rest3)
              (stackNonID_tail a (c :: d :: rest3) hs)), hl⟩

/-- The second component of an enumFrom member is a member of the list. -/
theorem enumFrom_mem {α : Type} :
    ∀ (l : List α) (n : Nat) (p : Nat × α), p ∈ List.enumFrom n l → p.2 ∈ l := by
  intro l
  induction l with
  | nil => intro n p hp; exact absurd hp (List.not_mem_nil p)
  | cons hd tl ih =>
    intro n p hp
    rcases List.mem_cons.mp hp with h | h
    · rw [h]
      exact List.mem_cons_self _ _
    · exact List.mem_cons_of_mem _ (ih (n + 1) p h)

/-- The second component of an enum member is a member of the list. -/
theorem enum_mem {α : Type} (l : List α) (p : Nat × α) (hp : p ∈ l.enum) : p.2 ∈ l :=
  enumFrom_mem l 0 p hp

/-- Every instruction of a basic block is an instruction of the function. -/
theorem blockCode_subset (code : List Bytecode) (l : Nat) (bb : Bytecode)
    (h : bb ∈ blockCode code l) : bb ∈ code :=
  List.drop_subset l code (List.take_subset _ _ h)

/-- Preservation along a block's instruction sequence: from an all-NonID
stack and locals, running the remaining instructions never reports a leak,
and a successful exit is all-NonID. -/
theorem runBlockAux_preserves (m : CompiledModule) (fv : FunctionView) (last : Nat) :
    ∀ (l : List (Nat × Bytecode)) (stack : List AbstractValue) (locals : Locals),
      stackNonID stack → localsNonID locals →
      (∀ p ∈ l, bytecodeNoKeyUnpack m p.2 = true) →
      blockPreserves (runBlockAux m fv last l stack locals) := by
  intro l
  induction l with
  | nil =>
    intro stack locals _ hl _
    exact ⟨rfl, fun l1 h1 => (Res.ok.inj h1) ▸ hl⟩
  | cons hd tl ih =>
    intro stack locals hs hl hall
    obtain ⟨i, b⟩ := hd
    have hstep := execute_inner_preserves m fv stack locals b hs hl
      (hall (i, b) (List.mem_cons_self _ _))
    rcases hstep with hp | ⟨s1, l1, hok, hs1, hl1⟩
    · have h1 : runBlockAux m fv last ((i, b) :: tl) stack locals = Res.panicked := by
        simp only [runBlockAux, execute, hp]
      rw [h1]
      exact ⟨rfl, fun l2 h2 => Res.noConfusion h2⟩
    · have h1 : runBlockAux m fv last ((i, b) :: tl) stack locals =
          if i = last ∧ s1 ≠ [] then Res.vmError VError.invariantViolation
          else runBlockAux m fv last tl s1 l1 := by
        simp only [runBlockAux, execute, hok]
        by_cases hcond : i = last ∧ s1 ≠ []
        · rw [if_pos hcond, if_pos hcond]
        · rw [if_neg hcond, if_neg hcond]
      rw [h1]
      by_cases hcond : i = last ∧ s1 ≠ []
      · rw [if_pos hcond]
        exact ⟨rfl, fun l2 h2 => Res.noConfusion h2⟩
      · rw [if_neg hcond]
        exact ih s1 l1 hs1 hl1 (fun p hp => hall p (List.mem_cons_of_mem _ hp))

/-- Preservation for one block run from an all-NonID entry state. -/
theorem runBlock_preserves (m : CompiledModule) (fv : FunctionView)
    (bcode : List Bytecode) (entry : AbstractState) (hentry : stateNonID entry)
    (hcode : ∀ bb ∈ bcode, bytecodeNoKeyUnpack m bb = true) :
    blockPreserves (runBlock m fv bcode entry) := by
  refine runBlockAux_preserves m fv (bcode.length - 1) bcode.enum [] entry.locals
    stackNonID_nil hentry ?_
  intro p hp
  exact hcode p.2 (enum_mem bcode p hp)

/-- The join fold keeps an all-NonID accumulator all-NonID when the incoming
entries are all NonID. -/
theorem joinFold_nonid :
    ∀ (entries : List (Nat × AbstractValue)) (acc : Locals × Bool),
      localsNonID acc.1 → (∀ p ∈ entries, p.2 = AbstractValue.NonID) →
      localsNonID (entries.foldl joinStep acc).1 := by
  intro entries
  induction entries with
  | nil => intro acc h _; exact h
  | cons hd tl ih =>
    intro acc hacc hall
    show localsNonID (tl.foldl joinStep (joinStep acc hd)).1
    refine ih (joinStep acc hd) ?_ (fun p hp => hall p (List.mem_cons_of_mem _ hp))
    have hv : hd.2 = AbstractValue.NonID := hall hd (List.mem_cons_self _ _)
    have hold : (mapGet acc.1 hd.1).getD AbstractValue.NonID = AbstractValue.NonID := by
      rcases Option.eq_none_or_eq_some (mapGet acc.1 hd.1) with hg | ⟨w, hg⟩
      · rw [hg]
        rfl
      · rw [hg]
        exact localsNonID_get acc.1 hd.1 w hacc hg
    show localsNonID (mapInsert acc.1 hd.1
      (AbstractValue.join hd.2 ((mapGet acc.1 hd.1).getD AbstractValue.NonID)))
    rw [hv, hold]
    exact localsNonID_insert acc.1 hd.1 hacc

/-- AbstractState::join of all-NonID states is all-NonID. -/
theorem join_nonid (s t : AbstractState) (hs : stateNonID s) (ht : stateNonID t) :
    stateNonID (AbstractState.join s t).1 := by
  show localsNonID (t.locals.foldl joinStep (s.locals, false)).1
  exact joinFold_nonid t.locals (s.locals, false) hs ht

/-- Joining an all-NonID exit state into one successor entry keeps the map
all-NonID. -/
theorem joinIntoPre_nonid (inv : List (Nat × AbstractState)) (tgt : Nat)
    (post : AbstractState) (hinv : invNonID inv) (hpost : stateNonID post) :
    invNonID (joinIntoPre inv tgt post).1 := by
  unfold joinIntoPre
  rcases Option.eq_none_or_eq_some (mapGet inv tgt) with hg | ⟨pre, hg⟩
  · simp only [hg]
    intro p hp
    rcases mem_mapInsert tgt post inv p hp with h | h
    · rw [h]
      exact hpost
    · exact hinv p h
  · simp only [hg]
    intro p hp
    rcases mem_mapInsert tgt (AbstractState.join pre post).1 inv p hp with h | h
    · rw [h]
      exact join_nonid pre post (hinv (tgt, pre) (mapGet_mem tgt inv pre hg)) hpost
    · exact hinv p h

/-- Joining an all-NonID exit state into every successor keeps the map
all-NonID. -/
theorem joinAll_nonid :
    ∀ (ts : List Nat) (inv : List (Nat × AbstractState)) (post : AbstractState),
      invNonID inv → stateNonID post → invNonID (joinAll ts inv post).1 := by
  intro ts
  induction ts with
  | nil => intro inv post hinv _; exact hinv
  | cons t ts2 ih =>
    intro inv post hinv hpost
    show invNonID (joinAll ts2 (joinIntoPre inv t post).1 post).1
    exact ih (joinIntoPre inv t post).1 post (joinIntoPre_nonid inv t post hinv hpost) hpost

/-- Preservation for one engine pass over the remaining leaders. -/
theorem runPass_preserves (m : CompiledModule) (fv : FunctionView) (code : List Bytecode)
    (hcode : ∀ bb ∈ code, bytecodeNoKeyUnpack m bb = true) :
    ∀ (ls : List Nat) (inv : List (Nat × AbstractState)) (changed : Bool),
      invNonID inv → passPreserves (runPass m fv code ls inv changed) := by
  intro ls
  induction ls with
  | nil =>
    intro inv changed hinv
    refine ⟨rfl, ?_⟩
    intro inv1 c1 h1
    have h2 := Res.ok.inj h1
    have h3 : inv = inv1 := congrArg Prod.fst h2
    rw [← h3]
    exact hinv
  | cons l ls2 ih =>
    intro inv changed hinv
    rcases Option.eq_none_or_eq_some (mapGet inv l) with hg | ⟨pre, hg⟩
    · have h1 : runPass m fv code (l :: ls2) inv changed =
          runPass m fv code ls2 inv changed := by
        simp only [runPass, hg]
      rw [h1]
      exact ih inv changed hinv
    · have hpre : stateNonID pre := hinv (l, pre) (mapGet_mem l inv pre hg)
      have hblock := runBlock_preserves m fv (blockCode code l) pre hpre
        (fun bb hbb => hcode bb (blockCode_subset code l bb hbb))
      cases hres : runBlock m fv (blockCode code l) pre with
      | ok postLocals =>
        have h1 : runPass m fv code (l :: ls2) inv changed =
            runPass m fv code ls2 (joinAll (blockSuccessors code l) inv ⟨postLocals⟩).1
              (changed || (joinAll (blockSuccessors code l) inv ⟨postLocals⟩).2) := by
          simp only [runPass, hg, hres]
        rw [h1]
        have hpost : stateNonID (⟨postLocals⟩ : AbstractState) := hblock.2 postLocals hres
        exact ih _ _ (joinAll_nonid (blockSuccessors code l) inv ⟨postLocals⟩ hinv hpost)
      | vmError e =>
        have h1 : runPass m fv code (l :: ls2) inv changed = Res.vmError e := by
          simp only [runPass, hg, hres]
        rw [h1]
        refine ⟨?_, fun inv1 c1 h2 => Res.noConfusion h2⟩
        have h3 := hblock.1
        rw [hres] at h3
        exact h3
      | panicked =>
        have h1 : runPass m fv code (l :: ls2) inv changed = Res.panicked := by
          simp only [runPass, hg, hres]
        rw [h1]
        exact ⟨rfl, fun inv1 c1 h2 => Res.noConfusion h2⟩
      | fuelOut =>
        have h1 : runPass m fv code (l :: ls2) inv changed = Res.fuelOut := by
          simp only [runPass, hg, hres]
        rw [h1]
        exact ⟨rfl, fun inv1 c1 h2 => Res.noConfusion h2⟩

/-- The iterated passes never report a leak from an all-NonID entry-state
map (whatever the fuel). -/
theorem iteratePasses_no_leak (m : CompiledModule) (fv : FunctionView)
    (code : List Bytecode) (ls : List Nat)
    (hcode : ∀ bb ∈ code, bytecodeNoKeyUnpack m bb = true) :
    ∀ (fuel : Nat) (inv : List (Nat × AbstractState)), invNonID inv →
      Res.isLeak (iteratePasses m fv code ls fuel inv) = false := by
  intro fuel
  induction fuel with
  | zero => intro inv _; rfl
  | succ n ih =>
    intro inv hinv
    have hpass := runPass_preserves m fv code hcode ls inv false hinv
    cases hres : runPass m fv code ls inv false with
    | ok p =>
      obtain ⟨inv1, changed⟩ := p
      have h1 : iteratePasses m fv code ls (Nat.succ n) inv =
          if changed then iteratePasses m fv code ls n inv1 else Res.ok () := by
        simp only [iteratePasses, hres]
      rw [h1]
      cases changed with
      | true =>
        rw [if_pos rfl]
        exact ih inv1 (hpass.2 inv1 true hres)
      | false => rfl
    | vmError e =>
      have h1 : iteratePasses m fv code ls (Nat.succ n) inv = Res.vmError e := by
        simp only [iteratePasses, hres]
      rw [h1]
      have h2 := hpass.1
      rw [hres] at h2
      exact h2
    | panicked =>
      have h1 : iteratePasses m fv code ls (Nat.succ n) inv = Res.panicked := by
        simp only [iteratePasses, hres]
      rw [h1]
      rfl
    | fuelOut =>
      have h1 : iteratePasses m fv code ls (Nat.succ n) inv = Res.fuelOut := by
        simp only [iteratePasses, hres]
      rw [h1]
      rfl

/-- The initial state (all parameters NonID) is all-NonID. -/
theorem new_nonid (nparams : Nat) : stateNonID (AbstractState.new nparams) := by
  show localsNonID
    ((List.range nparams).foldl (fun l i => mapInsert l i AbstractValue.NonID) [])
  have hgen : ∀ (xs : List Nat) (acc : Locals), localsNonID acc →
      localsNonID (xs.foldl (fun l i => mapInsert l i AbstractValue.NonID) acc) := by
    intro xs
    induction xs with
    | nil => intro acc h; exact h
    | cons x xs2 ih =>
      intro acc h
      exact ih (mapInsert acc x AbstractValue.NonID) (localsNonID_insert acc x h)
  exact hgen (List.range nparams) [] (fun p hp => absurd hp (List.not_mem_nil p))

/-- The analysis of one function whose body contains no key-struct unpack
never reports a leak. -/
theorem analyze_no_leak (fuel : Nat) (m : CompiledModule) (fv : FunctionView)
    (code : List Bytecode) (initial : AbstractState) (hinit : stateNonID initial)
    (hcode : ∀ bb ∈ code, bytecodeNoKeyUnpack m bb = true) :
    Res.isLeak (analyze_function fuel m fv code initial) = false := by
  refine iteratePasses_no_leak m fv code (blockStarts code) hcode fuel
    (mapInsert [] 0 initial) ?_
  intro p hp
  rcases mem_mapInsert 0 initial [] p hp with h | h
  · rw [h]
    exact hinit
  · exact absurd h (List.not_mem_nil p)

/-- The module driver never reports a leak over a list of definitions whose
bodies contain no key-struct unpack. -/
theorem verifyDefs_no_leak (fuel : Nat) (m : CompiledModule) :
    ∀ (defs : List FunctionDefinition),
      (∀ fd ∈ defs, ∀ cu, fd.code = some cu →
        ∀ bb ∈ cu.code, bytecodeNoKeyUnpack m bb = true) →
      Res.isLeak (verifyDefs fuel m defs) = false := by
  intro defs
  induction defs with
  | nil => intro _; rfl
  | cons fd rest ih =>
    intro hall
    cases hcode0 : fd.code with
    | none =>
      have h1 : verifyDefs fuel m (fd :: rest) = verifyDefs fuel m rest := by
        simp only [verifyDefs, hcode0]
      rw [h1]
      exact ih (fun fd2 h2 => hall fd2 (List.mem_cons_of_mem _ h2))
    | some cu =>
      rcases Option.eq_none_or_eq_some (m.function_handles.get? fd.function) with
        hh | ⟨handle, hh⟩
      · have h1 : verifyDefs fuel m (fd :: rest) = Res.panicked := by
          simp only [verifyDefs, hcode0, hh]
        rw [h1]
        rfl
      · rcases Option.eq_none_or_eq_some (m.signatures.get? handle.parameters) with
          hp | ⟨psig, hp⟩
        · have h1 : verifyDefs fuel m (fd :: rest) = Res.panicked := by
            simp only [verifyDefs, hcode0, hh, hp]
          rw [h1]
          rfl
        · rcases Option.eq_none_or_eq_some (m.signatures.get? handle.return_) with
            hr | ⟨rsig, hr⟩
          · have h1 : verifyDefs fuel m (fd :: rest) = Res.panicked := by
              simp only [verifyDefs, hcode0, hh, hp, hr]
            rw [h1]
            rfl
          · have hana := analyze_no_leak fuel m ⟨psig, rsig⟩ cu.code
              (AbstractState.new psig.tokens.length) (new_nonid psig.tokens.length)
              (hall fd (List.mem_cons_self _ _) cu hcode0)
            cases hres : analyze_function fuel m ⟨psig, rsig⟩ cu.code
                (AbstractState.new psig.tokens.length) with
            | ok u =>
              have h1 : verifyDefs fuel m (fd :: rest) = verifyDefs fuel m rest := by
                simp only [verifyDefs, hcode0, hh, hp, hr, hres]
              rw [h1]
              exact ih (fun fd2 h2 => hall fd2 (List.mem_cons_of_mem _ h2))
            | vmError e =>
              have h1 : verifyDefs fuel m (fd :: rest) = Res.vmError e := by
                simp only [verifyDefs, hcode0, hh, hp, hr, hres]
              rw [h1]
              rw [hres] at hana
              exact hana
            | panicked =>
              have h1 : verifyDefs fuel m (fd :: rest) = Res.panicked := by
                simp only [verifyDefs, hcode0, hh, hp, hr, hres]
              rw [h1]
              rfl
            | fuelOut =>
              have h1 : verifyDefs fuel m (fd :: rest) = Res.fuelOut := by
                simp only [verifyDefs, hcode0, hh, hp, hr, hres]
              rw [h1]
              rfl

/-- C8 (amended): for every module whose functions contain no Unpack or
UnpackGeneric of a key-bearing struct, verify_module never returns a leak
error: since no abstract ID is ever produced, every state stays all-NonID and
no sink check can fire.  (It does not always return Ok: a structurally
ill-formed module can still yield an invariant violation or a panic, and the
modelled driver can run out of fuel.) -/
theorem no_key_unpack_no_leak (fuel : Nat) (m : CompiledModule)
    (h : moduleNoKeyUnpack m = true) :
    Res.isLeak (verify_module fuel m) = false := by
  show Res.isLeak (verifyDefs fuel m m.function_defs) = false
  refine verifyDefs_no_leak fuel m m.function_defs ?_
  intro fd hfd cu hcu bb hbb
  unfold moduleNoKeyUnpack at h
  have h1 := List.all_eq_true.mp h fd hfd
  rw [hcu] at h1
  exact List.all_eq_true.mp h1 bb hbb

/-- Witness for C8: the LdTrue-then-Ret module contains no key unpack and its
verification result is not a leak error. -/
theorem no_key_unpack_no_leak_witness :
    Res.isLeak (verify_module 1 stackLeftModule) = false :=
  no_key_unpack_no_leak 1 stackLeftModule (by decide)

/-- Counterexample for C8: the LdTrue-then-Ret module contains no key unpack
yet verify_module returns the invariant-violation error (the block leaves a
value on the stack), not Ok as the claim states. -/
theorem no_key_unpack_invariant_violation_cex :
    moduleNoKeyUnpack stackLeftModule = true ∧
    verify_module 1 stackLeftModule = Res.vmError VError.invariantViolation :=
  ⟨by decide, by decide⟩

end SuiIdLeak
